import Mathlib

/-!
Verification development for the ViSP Python bindings generator
(`modules/python/generator/visp_python_bindgen/header.py`).

The Python source is shallowly embedded: each stage of
`HeaderFile.generate_class` / `generate_class_with_potiental_specialization`,
`HeaderFile.parse_sub_namespace` and `HeaderFile.get_header_dependencies`
becomes an executable Lean function over an explicit data model of parsed
declarations, per-class configuration and the bindings container.
Helpers that live in sibling modules (`methods.py`, `utils.py`,
`submodule.py`, ...) are modelled from the specification and marked as such
in their doc comments.
-/

/-! ## Data model -/

/-- Parameter of a parsed method, as delivered by the external header parser. -/
structure Param where
  type : String
  name : Option String
deriving DecidableEq

/-- Parsed method of a class, together with the configuration bits the
admission filter and the method-level specialization expansion consult.
`tmpl` is the list of formal template parameter names when the method is
itself a template; `methodSpecializations` is the per-method configuration
entry listing concrete argument tuples. -/
structure Method where
  name : String
  parameters : List Param
  returnType : String
  isConst : Bool
  static : Bool
  pureVirtual : Bool
  isCtor : Bool
  access : String
  deleted : Bool
  ignoredByConfig : Bool
  unsupportedSignature : Bool
  tmpl : Option (List String)
  methodSpecializations : Option (List (List String))
deriving DecidableEq

/-- One generated binding fragment for a method/operator/constructor.
The Python code stores the emitted text, whose leading identifier is the
binding target (`py<Name>`); the target is kept as an explicit field here so
that rebinding into a child class is observable. -/
structure MethodBinding where
  target : String
  payload : String
  isStatic : Bool
  isLambda : Bool
  isOperator : Bool
  isCtor : Bool
deriving DecidableEq

/-- Metadata of a generated plain-method binding (`MethodData` in the
source): the python-facing name and the staticness flag, which feed the
static/instance conflict check. -/
structure MethodData where
  pyName : String
  isStatic : Bool
deriving DecidableEq

/-- Public data field of a parsed class (`field` entries of the class scope). -/
structure ClassField where
  name : String
  typeStr : String
  isConstType : Bool
  static : Bool
  access : String
  unsupportedType : Bool
deriving DecidableEq

/-- Base class reference of a parsed class. -/
structure BaseClass where
  typename : String
  access : String
deriving DecidableEq

/-- Parsed class: typename segments, optional template parameter names,
bases, methods and fields.  `hasToStringOperator` records whether the class
has a suitable native conversion-to-string, consulted by the repr stage. -/
structure ClassScope where
  segments : List String
  tmpl : Option (List String)
  bases : List BaseClass
  methods : List Method
  fields : List ClassField
  hasToStringOperator : Bool
deriving DecidableEq

/-- One configured template specialization: target python name plus one
concrete argument per formal template parameter. -/
structure SpecEntry where
  pythonName : String
  arguments : List String
deriving DecidableEq

/-- Per-class configuration record (keys used by `header.py`). -/
structure ClsConfig where
  ignoredAttributes : List String
  isVirtual : Bool
  ignoreRepr : Bool
  useBufferProtocol : Bool
  additionalBindings : Option String
  acknowledgedPointerFields : List String
  specializations : Option (List SpecEntry)
deriving DecidableEq

/-- Names under which one generated object is bound
(`BoundObjectNames(python_ident, name_python, name_cpp_no_template,
name_cpp)` in the source; for namespaces the two cpp slots carry the
accumulated namespace prefix). -/
structure BoundObjectNames where
  pythonIdent : String
  pythonName : String
  cppNoTemplate : String
  cppName : String
deriving DecidableEq

/-- Kind tag of a generated object. -/
inductive GenObjectType where
  | classKind
  | namespaceKind
deriving DecidableEq

/-- Definitions held by one bindings entry: a class entry carries the field
dictionary and the binding-key → overload-list method dictionary
(`ClassBindingDefinitions`), a namespace entry carries a flat list of
free-function definitions. -/
inductive BindingDefs where
  | classDefs (fields : List (String × String)) (methods : List (String × List MethodBinding))
  | namespaceDefs (defs : List String)
deriving DecidableEq

/-- One entry of the bindings container (`SingleObjectBindings`). -/
structure SingleObjectBindings where
  names : BoundObjectNames
  decl : Option String
  defs : BindingDefs
  objectType : GenObjectType
deriving DecidableEq

/-- Structured report of non-generated declarations. -/
structure Report where
  nonGeneratedClasses : List String
  nonGeneratedMethods : List String
  pointerOrRefWarnings : List String
deriving DecidableEq

/-- Generation state threaded through the generator: the bindings container
(append-only list of entries) and the report. -/
structure GenState where
  container : List SingleObjectBindings
  report : Report
deriving DecidableEq

/-- Modelled from the spec: `BindingsContainer.find_bindings` (utils.py, not
under src) looks an entry up by qualified native name. -/
def find_bindings (c : List SingleObjectBindings) (s : String) : Option SingleObjectBindings :=
  c.find? (fun sob => sob.names.cppName == s)

/-! ## Association-list dictionaries

Python dictionaries are insertion ordered; they are modelled as association
lists where an existing key keeps its position. -/

/-- Lookup in an insertion-ordered string-keyed dictionary. -/
def alistLookup {α : Type} (d : List (String × α)) (k : String) : Option α :=
  (d.find? (fun kv => kv.1 == k)).map (fun kv => kv.2)

/-- Keys of an insertion-ordered dictionary. -/
def alistKeys {α : Type} (d : List (String × α)) : List String :=
  d.map (fun kv => kv.1)

/-- Dictionary of method bindings of one class: binding key → ordered
overload list. -/
abbrev MethodsDict := List (String × List MethodBinding)

/-- Embedding of `add_to_method_dict`: append the binding to the key's list,
creating the key at the end of the dictionary when absent. -/
def add_to_method_dict (d : MethodsDict) (key : String) (v : MethodBinding) : MethodsDict :=
  if d.any (fun kv => kv.1 == key) then
    d.map (fun kv => if kv.1 == key then (kv.1, kv.2 ++ [v]) else kv)
  else
    d ++ [(key, [v])]

/-- Python dictionary assignment `d[k] = v`: replace in place when the key
exists, append otherwise. -/
def dictInsertReplace (d : List (String × String)) (k v : String) : List (String × String) :=
  if d.any (fun kv => kv.1 == k) then
    d.map (fun kv => if kv.1 == k then (kv.1, v) else kv)
  else
    d ++ [(k, v)]

/-! ## Operator classification tables

Modelled from the spec (§4.4): the four sub-tables of the static operator
classification table (`methods.py`, not under src), mapping native operator
tokens to host protocol names.  The in-place table's tokens are disjoint
from the const-returning binary table's tokens ("matched only for operators
not already claimed by the const-returning table"). -/

/-- Modelled from the spec: unary const-returning operator table. -/
def supported_const_return_unary_op_map : List (String × String) :=
  [("-", "neg")]

/-- Modelled from the spec: binary const-returning operator table. -/
def supported_const_return_binary_op_map : List (String × String) :=
  [("==", "eq"), ("!=", "ne"), ("<", "lt"), (">", "gt"), ("<=", "le"), (">=", "ge"),
   ("+", "add"), ("-", "sub"), ("*", "mul"), ("/", "truediv")]

/-- Modelled from the spec: in-place binary operator table. -/
def supported_in_place_binary_op_map : List (String × String) :=
  [("+=", "iadd"), ("-=", "isub"), ("*=", "imul"), ("/=", "itruediv")]

/-- Modelled from the spec: n-ary operator table. -/
def supported_nary_op_map : List (String × String) :=
  [("()", "call")]

/-- Modelled from the spec: `cpp_operator_list` (methods.py, not under src),
the names recognized as operator methods; it is a superset of the names the
four classification tables can match. -/
def cpp_operator_list : List String :=
  ((supported_const_return_unary_op_map ++ supported_const_return_binary_op_map ++
    supported_in_place_binary_op_map ++ supported_nary_op_map).map
      (fun p => "operator" ++ p.1)) ++ ["operator<<", "operator="]

/-- Protocol key under which an operator binding is grouped. -/
def dunder (n : String) : String := "__" ++ n ++ "__"

/-- First entry of a classification sub-table whose token matches the
method name (the `method_name == f'operator{cpp_op}'` scan). -/
def findOpMatch (table : List (String × String)) (methodName : String) :
    Option (String × String) :=
  table.find? (fun p => methodName == "operator" ++ p.1)

/-- Synthetic operator wrapper binding (the `lambda_*_op` helpers of
methods.py produce a lambda marked as operator). -/
def opBinding (pythonIdent : String) (kind : String) (pyOpName : String)
    (nameCpp : String) : MethodBinding :=
  ⟨pythonIdent, "lambda " ++ kind ++ " " ++ pyOpName ++ " for " ++ nameCpp,
   false, true, true, false⟩

/-- Embedding of the operator classification of
`generate_class_with_potiental_specialization` (header.py lines 389-423):
dispatch on the parameter count; for one-parameter operators the
const-returning binary scan runs first and the in-place scan runs next
(each scan stops at its first token match). -/
def operatorBindings (pythonIdent nameCpp : String) (m : Method) :
    List (String × MethodBinding) :=
  if m.parameters.length < 1 then
    match findOpMatch supported_const_return_unary_op_map m.name with
    | some p => [(dunder p.2, opBinding pythonIdent "const_return_unary" p.2 nameCpp)]
    | none => []
  else if m.parameters.length == 1 then
    (match findOpMatch supported_const_return_binary_op_map m.name with
     | some p => [(dunder p.2, opBinding pythonIdent "const_return_binary" p.2 nameCpp)]
     | none => []) ++
    (match findOpMatch supported_in_place_binary_op_map m.name with
     | some p => [(dunder p.2, opBinding pythonIdent "in_place_binary" p.2 nameCpp)]
     | none => [])
  else
    match findOpMatch supported_nary_op_map m.name with
    | some p => [(dunder p.2, opBinding pythonIdent "nary" p.2 nameCpp)]
    | none => []

/-! ## Admission filter and method definition helpers -/

/-- Modelled from the spec: the admission filter
(`get_bindable_methods_with_config` / `get_bindable_functions_with_config`,
methods.py, not under src) admits a declaration iff it is public, not
deleted, not explicitly ignored by configuration, and its signature uses
only supported types (§4.2). -/
def isBindable (m : Method) : Bool :=
  m.access == "public" && !m.deleted && !m.ignoredByConfig && !m.unsupportedSignature

/-- Modelled from the spec: type resolution (`get_type`, utils.py, not under
src) substitutes a formal template parameter by its bound concrete argument
and leaves other type names unchanged. -/
def getTypeStr (specs : List (String × String)) (t : String) : String :=
  match specs.find? (fun kv => kv.1 == t) with
  | some kv => kv.2
  | none => t

/-- Modelled from the spec: the python-facing name of a plain method
(`define_method`, methods.py, not under src). -/
def pyMethodName (m : Method) : String := m.name

/-- Modelled from the spec: the emitted definition text of a plain method
binding (`define_method`, methods.py, not under src). -/
def defineMethodStr (nameCpp : String) (specs : List (String × String)) (m : Method) : String :=
  ".def(\"" ++ pyMethodName m ++ "\", &" ++ nameCpp ++ "::" ++ m.name ++ "<" ++
    ", ".intercalate (m.parameters.map (fun p => getTypeStr specs p.type)) ++ ">);"

/-- Modelled from the spec: the metadata `define_method` returns for a plain
method. -/
def defineMethodData (m : Method) : MethodData :=
  ⟨pyMethodName m, m.static⟩

/-- Modelled from the spec: the emitted constructor definition
(`define_constructor`, methods.py, not under src). -/
def defineCtorStr (paramsStrs : List String) : String :=
  ".def(py::init<" ++ ", ".intercalate paramsStrs ++ ">());"

/-- Modelled from the spec: `MethodBinding.get_definition_in_child_class`
(methods.py, not under src) re-emits a binding against the derived class's
binding target. -/
def get_definition_in_child_class (b : MethodBinding) (pythonIdent : String) : MethodBinding :=
  { b with target := pythonIdent }

/-- Modelled from the spec: `get_static_and_instance_overloads` (methods.py,
not under src) returns the binding keys claimed by both a static and an
instance plain-method binding (§4.5.8). -/
def get_static_and_instance_overloads (gen : List MethodData) : List String :=
  (gen.map (fun md => md.pyName)).filter (fun n =>
    gen.any (fun md => md.pyName == n && md.isStatic) &&
    gen.any (fun md => md.pyName == n && !md.isStatic))

/-- Modelled from the spec: `expand_templates`
(template_expansion.py, not under src) yields the finite list of declared
concrete argument tuples. -/
def expand_templates (specs : List (List String)) : List (List String) := specs

/-! ## Class generation pipeline (header.py lines 255-527)

`generate_class_with_potiental_specialization` is embedded as a composition
of named stages over the insertion-ordered method dictionary, in the order
the Python function executes them.  Documentation lookups are modelled along
the no-documentation path (`documentation_holder is None`), which leaves all
emitted fragments unchanged. -/

/-- Splits of the admitted methods of a class (header.py lines 337-354). -/
def admittedOf (cls : ClassScope) : List Method := cls.methods.filter isBindable

/-- Methods the admission filter rejected, recorded in the report. -/
def rejectedOf (cls : ClassScope) : List Method :=
  cls.methods.filter (fun m => !(isBindable m))

/-- Admitted constructors (header.py line 350). -/
def ctorsOf (cls : ClassScope) : List Method :=
  (admittedOf cls).filter (fun m => m.isCtor)

/-- Admitted non-constructor methods whose name is a recognized operator
name (header.py line 354). -/
def opsOf (cls : ClassScope) : List Method :=
  ((admittedOf cls).filter (fun m => !m.isCtor)).filter
    (fun m => cpp_operator_list.contains m.name)

/-- Admitted plain (non-constructor, non-operator) methods. -/
def basicsOf (cls : ClassScope) : List Method :=
  ((admittedOf cls).filter (fun m => !m.isCtor)).filter
    (fun m => !(cpp_operator_list.contains m.name))

/-- Whether the class is non-instantiable: it declares a pure virtual
method, or configuration forces virtuality (header.py lines 324-333). -/
def containsPureVirtualMethods (cls : ClassScope) (cfg : ClsConfig) : Bool :=
  cls.methods.any (fun m => m.pureVirtual) || cfg.isVirtual

/-- Constructor stage (header.py lines 357-368): one `__init__` binding per
admitted constructor, skipped entirely for non-instantiable classes. -/
def ctorStage (pythonIdent : String) (ownerSpecs : List (String × String))
    (pureVirt : Bool) (ctors : List Method) : MethodsDict :=
  if pureVirt then []
  else
    ctors.foldl
      (fun d m =>
        add_to_method_dict d "__init__"
          ⟨pythonIdent,
           defineCtorStr (m.parameters.map (fun p => getTypeStr ownerSpecs p.type)),
           false, false, false, true⟩)
      []

/-- Operator stage (header.py lines 372-423): classify each admitted
operator method and append the produced bindings. -/
def opStage (pythonIdent nameCpp : String) (ops : List Method) (d : MethodsDict) : MethodsDict :=
  ops.foldl
    (fun d m =>
      (operatorBindings pythonIdent nameCpp m).foldl
        (fun d kv => add_to_method_dict d kv.1 kv.2) d)
    d

/-- One iteration of the method-level specialization loop (header.py lines
432-443): assert the tuple arity against the method's formal parameters,
update the owning specializations with the method's tuple, and bind the
method under its python name. -/
def methodSpecStep (pythonIdent nameCpp : String) (ownerSpecs : List (String × String))
    (m : Method) (tps : List String) (acc : MethodsDict × List MethodData)
    (msp : List String) : Except String (MethodsDict × List MethodData) :=
  if tps.length == msp.length then
    let newSpecs := tps.zip msp ++ ownerSpecs
    let md := defineMethodData m
    Except.ok
      (add_to_method_dict acc.1 md.pyName
         ⟨pythonIdent, defineMethodStr nameCpp newSpecs m,
          m.static, false, false, false⟩,
       acc.2 ++ [md])
  else
    Except.error ("AssertionError: specialization arity for method " ++ m.name)

/-- One iteration of the plain-method loop (header.py lines 427-451): a
template method with declared specializations is expanded once per tuple,
any other method is bound once under its python name. -/
def basicMethodStep (pythonIdent nameCpp : String) (ownerSpecs : List (String × String))
    (acc : MethodsDict × List MethodData) (m : Method) :
    Except String (MethodsDict × List MethodData) :=
  match m.tmpl, m.methodSpecializations with
  | some tps, some specs =>
      (expand_templates specs).foldlM (methodSpecStep pythonIdent nameCpp ownerSpecs m tps) acc
  | _, _ =>
      let md := defineMethodData m
      Except.ok
        (add_to_method_dict acc.1 md.pyName
           ⟨pythonIdent, defineMethodStr nameCpp ownerSpecs m,
            m.static, false, false, false⟩,
         acc.2 ++ [md])

/-- Plain-method stage (header.py lines 427-451): bind each plain method
under its python name; a template method with declared specializations is
expanded once per tuple, with an arity assertion per tuple. -/
def basicStage (pythonIdent nameCpp : String) (ownerSpecs : List (String × String))
    (basics : List Method) (d : MethodsDict) :
    Except String (MethodsDict × List MethodData) :=
  basics.foldlM (basicMethodStep pythonIdent nameCpp ownerSpecs) (d, [])

/-- Qualified native class name without template arguments (header.py
line 529). -/
def nameCppNoTemplate (cls : ClassScope) : String :=
  "::".intercalate cls.segments

/-- Native class name with template arguments appended for a specialization
(header.py lines 266, 303-308); a formal parameter missing from the
specialization map is a Python `KeyError`. -/
def computeNameCpp (baseName : String) (tmpl : Option (List String))
    (ownerSpecs : List (String × String)) : Except String String :=
  match tmpl with
  | none => Except.ok baseName
  | some tps =>
    match tps.mapM (fun t =>
        match ownerSpecs.find? (fun kv => kv.1 == t) with
        | some kv => Except.ok kv.2
        | none => Except.error ("KeyError: " ++ t)) with
    | Except.error e => Except.error e
    | Except.ok args => Except.ok (baseName ++ "<" ++ ", ".intercalate args ++ ">")

/-- Native names of the public base classes (header.py lines 311-312). -/
def publicBaseStrs (cls : ClassScope) (ownerSpecs : List (String × String)) : List String :=
  (cls.bases.filter (fun b => b.access == "public")).map
    (fun b => getTypeStr ownerSpecs b.typename)

/-- Declaration fragment of the py::class_ binding (header.py lines 313-320). -/
def mkClassDecl (pythonIdent namePython nameCpp : String) (baseStrs : List String)
    (cfg : ClsConfig) : String :=
  let pyClassTemplateStr :=
    ", ".intercalate ([nameCpp, "std::shared_ptr<" ++ nameCpp ++ ">"] ++ baseStrs)
  let bufferArg := if cfg.useBufferProtocol then ["py::buffer_protocol()"] else []
  let clsArgs := ["submodule", "\"" ++ namePython ++ "\""] ++ bufferArg
  "\tpy::class_ " ++ pythonIdent ++ " = py::class_<" ++ pyClassTemplateStr ++ ">(" ++
    ", ".intercalate clsArgs ++ ");"

/-- Shadow propagation stage (header.py lines 462-475): for each public base
class found in the container, walk the keys the derived class defines,
skip the constructor key, and append the base's bindings under the keys the
base also holds, rebound to the derived class's binding target.
A found base entry that is not a class entry raises `RuntimeError`. -/
def shadowForBase (pythonIdent : String) (baseMethods : MethodsDict) (d : MethodsDict) :
    MethodsDict :=
  d.map (fun kv =>
    if kv.1 == "__init__" then kv
    else
      match baseMethods.find? (fun b => b.1 == kv.1) with
      | some bkv =>
          (kv.1, kv.2 ++ bkv.2.map (fun pb => get_definition_in_child_class pb pythonIdent))
      | none => kv)

/-- Fold of `shadowForBase` over the base entries found in the container. -/
def shadowPropagate (container : List SingleObjectBindings) (baseStrs : List String)
    (pythonIdent : String) (d : MethodsDict) : Except String MethodsDict :=
  (baseStrs.filterMap (find_bindings container)).foldlM
    (fun acc sob =>
      match sob.defs with
      | BindingDefs.classDefs _ bm => Except.ok (shadowForBase pythonIdent bm acc)
      | BindingDefs.namespaceDefs _ => Except.error "RuntimeError")
    d

/-- Repr stage (header.py lines 478-482): add a `__repr__` binding when the
class has a suitable conversion to string and configuration does not
suppress it.  `find_and_define_repr_str` (methods.py, not under src) is
modelled from the spec as yielding a non-empty wrapper exactly when the
class has such a conversion. -/
def reprStage (pythonIdent nameCpp : String) (cfg : ClsConfig) (cls : ClassScope)
    (d : MethodsDict) : MethodsDict :=
  if !cfg.ignoreRepr && cls.hasToStringOperator then
    add_to_method_dict d "__repr__"
      ⟨pythonIdent, "repr lambda for " ++ nameCpp, false, true, true, false⟩
  else d

/-- Additional-bindings stage (header.py lines 488-495): append the call to
the user-declared injection hook. -/
def additionalStage (pythonIdent : String) (cfg : ClsConfig) (d : MethodsDict) : MethodsDict :=
  match cfg.additionalBindings with
  | some fn =>
      add_to_method_dict d "__additional_bindings"
        ⟨pythonIdent, fn ++ "(" ++ pythonIdent ++ ");", false, false, false, false⟩
  | none => d

/-- Python-facing name of a field: the native name with every leading `m`
and `_` stripped (`field.name.lstrip('m_')`, header.py line 516). -/
def fieldNamePython (n : String) : String :=
  ⟨n.data.dropWhile (fun c => c == 'm' || c == '_')⟩

/-- Accessor selector of a field binding (header.py lines 518-521). -/
def fieldDefKind (f : ClassField) : String :=
  "def_" ++ (if f.isConstType then "readonly" else "readwrite") ++
    (if f.static then "_static" else "")

/-- Emitted text of one field binding (header.py line 523). -/
def fieldStr (pythonIdent nameCpp : String) (f : ClassField) (pyName : String) : String :=
  pythonIdent ++ "." ++ fieldDefKind f ++ "(\"" ++ pyName ++ "\", &" ++ nameCpp ++ "::" ++
    f.name ++ ");"

/-- Body of the field loop (header.py lines 505-524): skip configured and
non-public and unsupported fields, bind the rest keyed by the python-facing
name. -/
def fieldStep (pythonIdent nameCpp : String) (cfg : ClsConfig)
    (fd : List (String × String)) (f : ClassField) : List (String × String) :=
  if cfg.ignoredAttributes.contains f.name then fd
  else if f.access == "public" then
    if f.unsupportedType then fd
    else
      let pyN := fieldNamePython f.name
      dictInsertReplace fd pyN (fieldStr pythonIdent nameCpp f pyN)
  else fd

/-- Field stage (header.py lines 504-524): bind every public, non-ignored,
supported-type field, keyed by its python-facing name. -/
def fieldStage (pythonIdent nameCpp : String) (cfg : ClsConfig)
    (fields : List ClassField) : List (String × String) :=
  fields.foldl (fieldStep pythonIdent nameCpp cfg) []

/-- Embedding of `generate_class_with_potiental_specialization` (header.py
lines 255-527) producing the bindings entry for one concrete (possibly
specialized) class, or the fatal error the Python code raises. -/
def generate_class_with_potiental_specialization (container : List SingleObjectBindings)
    (cls : ClassScope) (namePython : String) (ownerSpecs : List (String × String))
    (cfg : ClsConfig) : Except String SingleObjectBindings :=
  let pythonIdent := "py" ++ namePython
  let baseName := nameCppNoTemplate cls
  match computeNameCpp baseName cls.tmpl ownerSpecs with
  | Except.error e => Except.error e
  | Except.ok nameCpp =>
    let baseStrs := publicBaseStrs cls ownerSpecs
    let classDecl := mkClassDecl pythonIdent namePython nameCpp baseStrs cfg
    let pureVirt := containsPureVirtualMethods cls cfg
    let d1 := ctorStage pythonIdent ownerSpecs pureVirt (ctorsOf cls)
    let d2 := opStage pythonIdent nameCpp (opsOf cls) d1
    match basicStage pythonIdent nameCpp ownerSpecs (basicsOf cls) d2 with
    | Except.error e => Except.error e
    | Except.ok (d3, gen) =>
      match shadowPropagate container baseStrs pythonIdent d3 with
      | Except.error e => Except.error e
      | Except.ok d4 =>
        let d5 := reprStage pythonIdent nameCpp cfg cls d4
        let d6 := additionalStage pythonIdent cfg d5
        let conflicts := get_static_and_instance_overloads gen
        if conflicts.isEmpty then
          Except.ok
            ⟨⟨pythonIdent, namePython, baseName, nameCpp⟩,
             some classDecl,
             BindingDefs.classDefs (fieldStage pythonIdent nameCpp cfg cls.fields) d6,
             GenObjectType.classKind⟩
        else
          Except.error ("Error generating overloads: " ++ ", ".intercalate conflicts)

/-- Report update for the methods the admission filter rejected
(header.py lines 341-342).  The Python code records them before any
fatal error can fire; the embedding records them on the success path, which
is the only path whose state escapes. -/
def addRejectedMethods (r : Report) (cls : ClassScope) : Report :=
  { r with nonGeneratedMethods :=
      r.nonGeneratedMethods ++ (rejectedOf cls).map (fun m => m.name) }

/-- State-passing wrapper: run the class-specialization generator and append
its entry to the container (header.py line 527). -/
def generateClassWithSpecState (st : GenState) (cls : ClassScope) (namePython : String)
    (ownerSpecs : List (String × String)) (cfg : ClsConfig) : Except String GenState :=
  match generate_class_with_potiental_specialization st.container cls namePython
      ownerSpecs cfg with
  | Except.error e => Except.error e
  | Except.ok sob =>
      Except.ok ⟨st.container ++ [sob], addRejectedMethods st.report cls⟩

/-- Pointer/reference field diagnostic stage (header.py lines 538-545):
collect the field types containing `&` or `*`; when some are not
acknowledged in the configuration, record a warning. -/
def ptrRefWarningStage (st : GenState) (cls : ClassScope) (cfg : ClsConfig) : GenState :=
  let refsOrPtr := (cls.fields.map (fun f => getTypeStr [] f.typeStr)).filter
    (fun t => t.contains '&' || t.contains '*')
  if (refsOrPtr.filter (fun t => !(cfg.acknowledgedPointerFields.contains t))).length > 0 then
    { st with report :=
        { st.report with pointerOrRefWarnings :=
            st.report.pointerOrRefWarnings ++ [nameCppNoTemplate cls] } }
  else st

/-- Embedding of `HeaderFile.generate_class` (header.py lines 529-563).
An ignored class is returned unchanged.  An absent per-class configuration
record is dereferenced by the pointer-field stage (`cls_config.get`,
line 538) before the `cls_config is None` test at line 552 can run: Python
raises `AttributeError` there.  A template class with no declared
specializations is recorded in the report and skipped; otherwise one entry
per configured specialization is generated, with a fatal arity assertion
per tuple. -/
def generate_class (st : GenState) (cls : ClassScope) (classIgnored : Bool)
    (cfgOpt : Option ClsConfig) : Except String GenState :=
  let nameNT := nameCppNoTemplate cls
  if classIgnored then Except.ok st
  else
    match cfgOpt with
    | none => Except.error "AttributeError: NoneType object has no attribute get"
    | some cfg =>
      let st := ptrRefWarningStage st cls cfg
      match cls.tmpl with
      | none =>
          generateClassWithSpecState st cls (nameNT.replace "vp" "") [] cfg
      | some tnames =>
        match cfg.specializations with
        | none =>
            Except.ok { st with report :=
              { st.report with nonGeneratedClasses := st.report.nonGeneratedClasses ++ [nameNT] } }
        | some [] =>
            Except.ok { st with report :=
              { st.report with nonGeneratedClasses := st.report.nonGeneratedClasses ++ [nameNT] } }
        | some specs =>
            specs.foldlM
              (fun st sp =>
                if tnames.length == sp.arguments.length then
                  generateClassWithSpecState st cls sp.pythonName
                    (tnames.zip sp.arguments) cfg
                else
                  Except.error ("AssertionError: Specializing " ++ nameNT ++
                    ": wrong number of template arguments"))
              st

/-! ## Namespace traversal (header.py lines 216-245) -/

mutual
/-- Parsed namespace scope: its own name, its free functions, and its child
namespaces keyed by name (the parser's `ns.namespaces` dictionary). -/
inductive NsScope where
  | node (name : String) (functions : List Method) (children : NsChildren)
/-- Ordered child-namespace dictionary of a namespace scope. -/
inductive NsChildren where
  | nil
  | cons (key : String) (child : NsScope) (rest : NsChildren)
end

/-- Name of a namespace scope. -/
def NsScope.name : NsScope → String
  | NsScope.node n _ _ => n

/-- Free functions of a namespace scope. -/
def NsScope.functions : NsScope → List Method
  | NsScope.node _ fs _ => fs

/-- Children of a namespace scope. -/
def NsScope.children : NsScope → NsChildren
  | NsScope.node _ _ cs => cs

/-- Bindings entry emitted for one visited namespace: the synthetic bound
object carries the accumulated qualified prefix, and the definitions are the
admitted free functions' emitted texts (header.py lines 237-242). -/
def nsEntry (subName nsPfx : String) (ns : NsScope) : SingleObjectBindings :=
  ⟨⟨"submodule", subName, nsPfx, nsPfx⟩,
   none,
   BindingDefs.namespaceDefs
     ((ns.functions.filter isBindable).map (fun f => defineMethodStr nsPfx [] f)),
   GenObjectType.namespaceKind⟩

mutual
/-- Embedding of `HeaderFile.parse_sub_namespace` (header.py lines 216-245):
an anonymous namespace at a non-root level is skipped with its whole
subtree; otherwise rejected functions are recorded, the namespace's entry is
appended, and the children are visited with the accumulated prefix. -/
def parse_sub_namespace (subName : String) (st : GenState) (ns : NsScope)
    (nsPfx : String) (isRoot : Bool) : GenState :=
  match ns with
  | NsScope.node nm fns children =>
    if !isRoot && nm == "" then st
    else
      let rejected := fns.filter (fun f => !(isBindable f))
      let st1 : GenState :=
        ⟨st.container ++ [nsEntry subName nsPfx (NsScope.node nm fns children)],
         { st.report with nonGeneratedMethods :=
             st.report.nonGeneratedMethods ++ rejected.map (fun f => f.name) }⟩
      parseSubNamespaceChildren subName st1 children nsPfx
termination_by sizeOf ns
/-- Iteration over the child-namespace dictionary (header.py lines 243-245). -/
def parseSubNamespaceChildren (subName : String) (st : GenState)
    (cs : NsChildren) (nsPfx : String) : GenState :=
  match cs with
  | NsChildren.nil => st
  | NsChildren.cons k c rest =>
      parseSubNamespaceChildren subName
        (parse_sub_namespace subName st c (nsPfx ++ k ++ "::") false) rest nsPfx
termination_by sizeOf cs
end

/-! ## Dependency resolution (header.py lines 77-102) -/

/-- One header unit as seen by `get_header_dependencies`: an identity (the
Python code compares objects), the file name, the class names it contains,
and the base-class names it depends on. -/
structure Header where
  hid : Nat
  pathName : String
  contains : List String
  depends : List String
deriving DecidableEq

/-- Per-submodule dependency configuration:
`header_additional_dependencies`, an optional mapping file name → forced
dependency file names. -/
structure DepConfig where
  headerAdditionalDependencies : Option (List (String × List String))
deriving DecidableEq

/-- User-forced dependency names of one header (header.py lines 81-84). -/
def userRequiredHeaders (cfg : DepConfig) (self : Header) : List String :=
  match cfg.headerAdditionalDependencies with
  | none => []
  | some m =>
    match m.find? (fun kv => kv.1 == self.pathName) with
    | some kv => kv.2
    | none => []

/-- Direct dependency test of the loop body (header.py lines 90-97): the
other header is user-required, or some declared base name of `self` is
contained in it. -/
def isHeaderDep (cfg : DepConfig) (self other : Header) : Bool :=
  (userRequiredHeaders cfg self).contains other.pathName ||
    self.depends.any (fun d => other.contains.contains d)

/-- Loop of `get_header_dependencies` over the header list (header.py lines
87-101): skip `self`, and for each direct dependency include it followed by
its own recursively computed dependencies. `rec` is the recursive call with
one less unit of fuel. -/
def ghdLoop (cfg : DepConfig) (rec : Header → Option (List Header)) (self : Header) :
    List Header → Option (List Header)
  | [] => some []
  | h :: rest =>
    if h = self then ghdLoop cfg rec self rest
    else if isHeaderDep cfg self h then
      match rec h, ghdLoop cfg rec self rest with
      | some upper, some ds => some (h :: (upper ++ ds))
      | _, _ => none
    else ghdLoop cfg rec self rest

/-- Embedding of `HeaderFile.get_header_dependencies` (header.py lines
77-102).  The Python recursion carries no fuel and no visited set; the
explicit fuel makes divergence observable: a run that exhausts every fuel
bound is a non-terminating run of the source. -/
def get_header_dependencies (cfg : DepConfig) (headers : List Header) :
    Nat → Header → Option (List Header)
  | 0 => fun _ => none
  | fuel + 1 => fun self =>
      if self.depends.isEmpty then some []
      else ghdLoop cfg (get_header_dependencies cfg headers fuel) self headers

/-! ## Derived views used by the statements -/

/-- Fields that survive the field-stage filters: not configured as ignored,
public, and of supported type. -/
def retainedFields (cfg : ClsConfig) (fields : List ClassField) : List ClassField :=
  fields.filter (fun f =>
    !(cfg.ignoredAttributes.contains f.name) && f.access == "public" && !f.unsupportedType)

/-! ## Concrete inputs used by witnesses and counterexamples -/

/-- Admitted binary `operator+` method with one parameter. -/
def wOpPlus : Method :=
  ⟨"operator+", [⟨"const vpA&", some "other"⟩], "vpA", true, false, false, false,
   "public", false, false, false, none, none⟩

/-- Empty per-class configuration (all defaults). -/
def wCfg : ClsConfig := ⟨[], false, false, false, none, [], none⟩

/-- Public field named `m_x`. -/
def wField : ClassField := ⟨"m_x", "float", false, false, "public", false⟩

/-- Non-template class `vpA` with one public field and no methods. -/
def wFieldCls : ClassScope := ⟨["vpA"], none, [], [], [wField], false⟩

/-- Bindings entry generated for `wFieldCls` (the success value of the run). -/
def wFieldSob : SingleObjectBindings :=
  (generate_class_with_potiental_specialization [] wFieldCls "A" [] wCfg).toOption.getD
    ⟨⟨"", "", "", ""⟩, none, BindingDefs.namespaceDefs [], GenObjectType.namespaceKind⟩

/-- Plain instance method `foo`. -/
def wFooInstance : Method :=
  ⟨"foo", [⟨"int", some "v"⟩], "void", false, false, false, false,
   "public", false, false, false, none, none⟩

/-- Plain static method `foo` (same binding key as `wFooInstance`). -/
def wFooStatic : Method :=
  ⟨"foo", [⟨"double", some "v"⟩], "void", false, true, false, false,
   "public", false, false, false, none, none⟩

/-- Class declaring both a static and an instance `foo`. -/
def wConflictCls : ClassScope := ⟨["vpC"], none, [], [wFooInstance, wFooStatic], [], false⟩

/-- Pure-virtual method. -/
def wPureVirtual : Method :=
  ⟨"doWork", [], "void", false, false, true, false,
   "public", false, false, false, none, none⟩

/-- Constructor declaration. -/
def wCtor : Method :=
  ⟨"vpV", [], "", false, false, false, true,
   "public", false, false, false, none, none⟩

/-- Abstract class: one pure-virtual method, one constructor, one plain
method, one operator, one public field. -/
def wVirtualCls : ClassScope :=
  ⟨["vpV"], none, [], [wPureVirtual, wCtor, wFooInstance, wOpPlus], [wField], false⟩

/-- Template class `vpT<T>` with one plain method using `T`. -/
def wTplMethod : Method :=
  ⟨"value", [⟨"T", some "v"⟩], "T", false, false, false, false,
   "public", false, false, false, none, none⟩

/-- Templated class with a single formal parameter `T`. -/
def wTplCls : ClassScope := ⟨["vpT"], some ["T"], [], [wTplMethod], [], false⟩

/-- Configuration declaring two specializations of `wTplCls`. -/
def wTplCfg : ClsConfig :=
  ⟨[], false, false, false, none, [],
   some [⟨"TDouble", ["double"]⟩, ⟨"TInt", ["int"]⟩]⟩

/-- Configuration declaring one specialization of the wrong arity. -/
def wBadArityCfg : ClsConfig :=
  ⟨[], false, false, false, none, [],
   some [⟨"TPair", ["double", "int"]⟩]⟩

/-- Class-template configuration with an empty specialization list. -/
def wEmptySpecCfg : ClsConfig := ⟨[], false, false, false, none, [], some []⟩

/-- Plain method that is itself a template, with a configured one-parameter
specialization list containing a two-argument tuple (arity mismatch). -/
def wBadMethodTpl : Method :=
  ⟨"convert", [⟨"U", some "u"⟩], "void", false, false, false, false,
   "public", false, false, false, some ["U"], some [["float", "double"]]⟩

/-- Non-template class holding the ill-specialized template method. -/
def wBadMethodCls : ClassScope := ⟨["vpM"], none, [], [wBadMethodTpl], [], false⟩

/-- Method binding held by the base class used in the shadow-propagation
counterexample. -/
def wBaseFooBinding : MethodBinding :=
  ⟨"pyBase", ".def(\"foo\", &vpBase::foo);", false, false, false, false⟩

/-- Container entry of the already-generated base class `vpBase`, holding a
binding set with key `foo`. -/
def wBaseSob : SingleObjectBindings :=
  ⟨⟨"pyBase", "Base", "vpBase", "vpBase"⟩,
   some "decl",
   BindingDefs.classDefs [] [("foo", [wBaseFooBinding])],
   GenObjectType.classKind⟩

/-- Derived class of `vpBase` declaring no methods at all. -/
def wDerivedCls : ClassScope :=
  ⟨["vpDerived"], none, [⟨"vpBase", "public"⟩], [], [], false⟩

/-- Entry generated for `wDerivedCls` against a container holding `wBaseSob`. -/
def wDerivedSob : SingleObjectBindings :=
  (generate_class_with_potiental_specialization [wBaseSob] wDerivedCls "Derived" [] wCfg).toOption.getD
    ⟨⟨"", "", "", ""⟩, none, BindingDefs.namespaceDefs [], GenObjectType.namespaceKind⟩

/-- Derived class of `vpBase` declaring its own `foo` overload. -/
def wDerivedFooCls : ClassScope :=
  ⟨["vpDerived"], none, [⟨"vpBase", "public"⟩], [wFooInstance], [], false⟩

/-- Free function `foo` used by the namespace-traversal example. -/
def wFreeFn : Method :=
  ⟨"freefn", [], "int", false, false, false, false,
   "public", false, false, false, none, none⟩

/-- Anonymous namespace scope holding a free function, nested two levels
deep in the example tree. -/
def wAnonNs : NsScope := NsScope.node "" [wFreeFn] NsChildren.nil

/-- Named namespace `inner` holding a free function. -/
def wInnerNs : NsScope := NsScope.node "inner" [wFreeFn] NsChildren.nil

/-- Named namespace `outer` with children `inner` and the anonymous scope. -/
def wOuterNs : NsScope :=
  NsScope.node "outer" []
    (NsChildren.cons "inner" wInnerNs (NsChildren.cons "" wAnonNs NsChildren.nil))

/-- Root (unnamed) namespace of the example translation unit. -/
def wRootNs : NsScope :=
  NsScope.node "" [wFreeFn] (NsChildren.cons "outer" wOuterNs NsChildren.nil)

/-- Empty generation state. -/
def emptyGenState : GenState := ⟨[], ⟨[], [], []⟩⟩

/-- Header `a.h`, declaring `vpA` and inheriting from `vpB` (cyclic example:
`b.h` also depends back on `a.h`). -/
def cycHeaderA : Header := ⟨0, "a.h", ["vpA"], ["vpB"]⟩

/-- Header `b.h`, declaring `vpB` and inheriting from `vpA`. -/
def cycHeaderB : Header := ⟨1, "b.h", ["vpB"], ["vpA"]⟩

/-- Dependency configuration with no user-forced dependencies. -/
def wDepCfg : DepConfig := ⟨none⟩

/-- Acyclic example: header `base.h` declaring `vpB` with no dependencies. -/
def acyHeaderB : Header := ⟨1, "base.h", ["vpB"], []⟩

/-- Acyclic example: header `derived.h` declaring `vpD`, depending on `vpB`. -/
def acyHeaderD : Header := ⟨0, "derived.h", ["vpD"], ["vpB"]⟩

/-- Rank function witnessing acyclicity of the two-header example. -/
def acyRank (h : Header) : Nat := if h = acyHeaderB then 0 else 1

/-- Entry generated for the abstract class `wVirtualCls`. -/
def wVirtualSob : SingleObjectBindings :=
  (generate_class_with_potiental_specialization [] wVirtualCls "V" [] wCfg).toOption.getD
    ⟨⟨"", "", "", ""⟩, none, BindingDefs.namespaceDefs [], GenObjectType.namespaceKind⟩

/-- Result of the plain-method stage on the conflicting class `wConflictCls`. -/
def wConflictBasic : MethodsDict × List MethodData :=
  (basicStage "pyC" "vpC" [] (basicsOf wConflictCls)
    (opStage "pyC" "vpC" (opsOf wConflictCls)
      (ctorStage "pyC" [] (containsPureVirtualMethods wConflictCls wCfg)
        (ctorsOf wConflictCls)))).toOption.getD ([], [])

/-- Overload binding the derived class defines itself under key `foo` in the
shadow-propagation witness. -/
def wDerivedOwnBinding : MethodBinding :=
  ⟨"pyDerived", ".def(\"foo\", &vpDerived::foo);", false, false, false, false⟩

/-- Final state of the run generating both specializations of `wTplCls`. -/
def wTplState : GenState :=
  (generate_class emptyGenState wTplCls false (some wTplCfg)).toOption.getD emptyGenState

/-! ## Helper lemmas -/

lemma binary_blocks_inplace (n : String) (p : String × String)
    (h : findOpMatch supported_const_return_binary_op_map n = some p) :
    findOpMatch supported_in_place_binary_op_map n = none := by
  have hp := List.find?_some h
  have hmem := List.mem_of_find?_eq_some h
  have hn : n = "operator" ++ p.1 := eq_of_beq hp
  subst hn
  fin_cases hmem <;> decide

lemma gcws_ok_inv (container : List SingleObjectBindings) (cls : ClassScope)
    (namePython : String) (ownerSpecs : List (String × String)) (cfg : ClsConfig)
    (sob : SingleObjectBindings)
    (h : generate_class_with_potiental_specialization container cls namePython ownerSpecs cfg
        = Except.ok sob) :
    ∃ nameCpp d3 gen d4,
      computeNameCpp (nameCppNoTemplate cls) cls.tmpl ownerSpecs = Except.ok nameCpp ∧
      basicStage ("py" ++ namePython) nameCpp ownerSpecs (basicsOf cls)
        (opStage ("py" ++ namePython) nameCpp (opsOf cls)
          (ctorStage ("py" ++ namePython) ownerSpecs
            (containsPureVirtualMethods cls cfg) (ctorsOf cls))) = Except.ok (d3, gen) ∧
      shadowPropagate container (publicBaseStrs cls ownerSpecs) ("py" ++ namePython) d3
        = Except.ok d4 ∧
      get_static_and_instance_overloads gen = [] ∧
      sob = ⟨⟨"py" ++ namePython, namePython, nameCppNoTemplate cls, nameCpp⟩,
             some (mkClassDecl ("py" ++ namePython) namePython nameCpp
               (publicBaseStrs cls ownerSpecs) cfg),
             BindingDefs.classDefs
               (fieldStage ("py" ++ namePython) nameCpp cfg cls.fields)
               (additionalStage ("py" ++ namePython) cfg
                 (reprStage ("py" ++ namePython) nameCpp cfg cls d4)),
             GenObjectType.classKind⟩ := by
  simp only [generate_class_with_potiental_specialization] at h
  split at h
  · exact absurd h (by simp)
  next nameCpp hc =>
    split at h
    · exact absurd h (by simp)
    next d3 gen hb =>
      split at h
      · exact absurd h (by simp)
      next d4 hs =>
        split at h
        · next hconf =>
            refine ⟨nameCpp, d3, gen, d4, hc, hb, hs, ?_, ?_⟩
            · exact List.isEmpty_iff.mp hconf
            · exact (Except.ok.injEq _ _).mp h.symm ▸ rfl
        · exact absurd h (by simp)

lemma retainedFields_cons_keep (cfg : ClsConfig) (f : ClassField) (rest : List ClassField)
    (hk : (!(cfg.ignoredAttributes.contains f.name) && f.access == "public" &&
          !f.unsupportedType) = true) :
    retainedFields cfg (f :: rest) = f :: retainedFields cfg rest := by
  simp only [retainedFields, List.filter_cons, hk, if_true]

lemma retainedFields_cons_skip (cfg : ClsConfig) (f : ClassField) (rest : List ClassField)
    (hk : (!(cfg.ignoredAttributes.contains f.name) && f.access == "public" &&
          !f.unsupportedType) = false) :
    retainedFields cfg (f :: rest) = retainedFields cfg rest := by
  simp only [retainedFields, List.filter_cons, hk, Bool.false_eq_true, if_false]

lemma fieldStep_skip (pid ncpp : String) (cfg : ClsConfig) (fd : List (String × String))
    (f : ClassField)
    (hk : (!(cfg.ignoredAttributes.contains f.name) && f.access == "public" &&
          !f.unsupportedType) = false) :
    fieldStep pid ncpp cfg fd f = fd := by
  by_cases hig : cfg.ignoredAttributes.contains f.name = true
  · simp only [fieldStep, hig, reduceIte]
  · rw [Bool.not_eq_true] at hig
    by_cases hacc : (f.access == "public") = true
    · have hun : f.unsupportedType = true := by
        by_contra hc
        rw [Bool.not_eq_true] at hc
        rw [hig, hacc, hc] at hk
        simp at hk
      simp only [fieldStep, hig, hacc, hun, Bool.false_eq_true, reduceIte]
    · rw [Bool.not_eq_true] at hacc
      simp only [fieldStep, hig, hacc, Bool.false_eq_true, reduceIte]

lemma fieldStep_keep (pid ncpp : String) (cfg : ClsConfig) (fd : List (String × String))
    (f : ClassField)
    (hk : (!(cfg.ignoredAttributes.contains f.name) && f.access == "public" &&
          !f.unsupportedType) = true) :
    fieldStep pid ncpp cfg fd f
      = dictInsertReplace fd (fieldNamePython f.name)
          (fieldStr pid ncpp f (fieldNamePython f.name)) := by
  have h1 := Bool.and_eq_true_iff.mp hk
  have h2 := Bool.and_eq_true_iff.mp h1.1
  have hig : cfg.ignoredAttributes.contains f.name = false := by
    have := h2.1; simpa using this
  have hacc : (f.access == "public") = true := h2.2
  have hun : f.unsupportedType = false := by
    have := h1.2; simpa using this
  simp only [fieldStep, hig, hacc, hun, Bool.false_eq_true, reduceIte]

lemma fieldStage_foldl (pid ncpp : String) (cfg : ClsConfig) :
    ∀ (fields : List ClassField) (acc : List (String × String)),
      fields.foldl (fieldStep pid ncpp cfg) acc
      = (retainedFields cfg fields).foldl
          (fun fd f =>
            dictInsertReplace fd (fieldNamePython f.name)
              (fieldStr pid ncpp f (fieldNamePython f.name)))
          acc := by
  intro fields
  induction fields with
  | nil => intro acc; simp [retainedFields]
  | cons f rest ih =>
    intro acc
    by_cases hk : (!(cfg.ignoredAttributes.contains f.name) && f.access == "public" &&
        !f.unsupportedType) = true
    · rw [List.foldl_cons, fieldStep_keep pid ncpp cfg acc f hk,
          retainedFields_cons_keep cfg f rest hk, List.foldl_cons]
      exact ih _
    · rw [Bool.not_eq_true] at hk
      rw [List.foldl_cons, fieldStep_skip pid ncpp cfg acc f hk,
          retainedFields_cons_skip cfg f rest hk]
      exact ih acc

lemma fieldStage_eq_retained (pid ncpp : String) (cfg : ClsConfig)
    (fields : List ClassField) :
    fieldStage pid ncpp cfg fields
      = (retainedFields cfg fields).foldl
          (fun fd f =>
            dictInsertReplace fd (fieldNamePython f.name)
              (fieldStr pid ncpp f (fieldNamePython f.name)))
          [] :=
  fieldStage_foldl pid ncpp cfg fields []

lemma dictInsertReplace_fresh (d : List (String × String)) (k v : String)
    (h : d.any (fun kv => kv.1 == k) = false) :
    dictInsertReplace d k v = d ++ [(k, v)] := by
  simp only [dictInsertReplace, h, Bool.false_eq_true, reduceIte]

lemma foldl_insert_map (key val : ClassField → String) :
    ∀ (l : List ClassField) (acc : List (String × String)),
      (∀ f ∈ l, acc.any (fun kv => kv.1 == key f) = false) →
      (l.map key).Nodup →
      l.foldl (fun fd f => dictInsertReplace fd (key f) (val f)) acc
        = acc ++ l.map (fun f => (key f, val f)) := by
  intro l
  induction l with
  | nil => intro acc _ _; simp
  | cons f rest ih =>
    intro acc hfresh hnd
    rw [List.foldl_cons,
        dictInsertReplace_fresh acc (key f) (val f) (hfresh f (List.mem_cons_self f rest))]
    rw [List.map_cons] at hnd
    have hnd' : (rest.map key).Nodup := (List.nodup_cons.mp hnd).2
    have hkf : key f ∉ rest.map key := (List.nodup_cons.mp hnd).1
    have hfresh' : ∀ g ∈ rest,
        (acc ++ [(key f, val f)]).any (fun kv => kv.1 == key g) = false := by
      intro g hg
      rw [List.any_append]
      have h1 : acc.any (fun kv => kv.1 == key g) = false :=
        hfresh g (List.mem_cons_of_mem f hg)
      have h2 : [(key f, val f)].any (fun kv => kv.1 == key g) = false := by
        simp only [List.any_cons, List.any_nil, Bool.or_false]
        have : key f ≠ key g := by
          intro he
          exact hkf (he ▸ List.mem_map_of_mem key hg)
        simpa using this
      rw [h1, h2]
      rfl
    rw [ih (acc ++ [(key f, val f)]) hfresh' hnd']
    simp

lemma alistLookup_of_map (key val : ClassField → String) :
    ∀ (l : List ClassField) (f : ClassField), f ∈ l → (l.map key).Nodup →
      alistLookup (l.map (fun g => (key g, val g))) (key f) = some (val f) := by
  intro l
  induction l with
  | nil => intro f hf; exact absurd hf (by simp)
  | cons g rest ih =>
    intro f hf hnd
    rw [List.map_cons] at hnd
    rcases List.mem_cons.mp hf with he | hmem
    · subst he
      simp [alistLookup, List.find?_cons]
    · have hne : (key g == key f) = false := by
        have h1 : key g ∉ rest.map key := (List.nodup_cons.mp hnd).1
        have : key g ≠ key f := by
          intro he
          exact h1 (he ▸ List.mem_map_of_mem key hmem)
        simpa using this
      have hnd' : (rest.map key).Nodup := (List.nodup_cons.mp hnd).2
      simpa [alistLookup, List.find?_cons, hne] using ih f hmem hnd'

lemma fieldStage_lookup (pid ncpp : String) (cfg : ClsConfig) (fields : List ClassField)
    (f : ClassField) (hf : f ∈ retainedFields cfg fields)
    (hnd : ((retainedFields cfg fields).map (fun g => fieldNamePython g.name)).Nodup) :
    alistLookup (fieldStage pid ncpp cfg fields) (fieldNamePython f.name)
      = some (fieldStr pid ncpp f (fieldNamePython f.name)) := by
  rw [fieldStage_eq_retained,
      foldl_insert_map (fun g => fieldNamePython g.name)
        (fun g => fieldStr pid ncpp g (fieldNamePython g.name))
        (retainedFields cfg fields) [] (by intro g _; rfl) hnd]
  simpa using alistLookup_of_map (fun g => fieldNamePython g.name)
    (fun g => fieldStr pid ncpp g (fieldNamePython g.name))
    (retainedFields cfg fields) f hf hnd

/-! ## Claim theorems -/

/-- C2: for every admitted operator method the classification produces at
most one operator binding (the sub-tables are attempted in the fixed order
unary, binary-const, binary-in-place, n-ary by parameter count, and their
token sets cannot both match one name); in particular an admitted operator
with native token `+` and exactly one parameter is bound under the
binary-add protocol key and under no other key. -/
theorem claim_C2_operator_priority (pythonIdent nameCpp : String) (m : Method) :
    (operatorBindings pythonIdent nameCpp m).length ≤ 1 ∧
    (m.name = "operator+" → m.parameters.length = 1 →
      (operatorBindings pythonIdent nameCpp m).map Prod.fst = [dunder "add"]) := by
  constructor
  · unfold operatorBindings
    by_cases h0 : m.parameters.length < 1
    · simp only [if_pos h0]
      cases findOpMatch supported_const_return_unary_op_map m.name <;> simp
    · simp only [if_neg h0]
      by_cases h1 : m.parameters.length == 1
      · simp only [if_pos h1]
        cases hb : findOpMatch supported_const_return_binary_op_map m.name with
        | none =>
          cases findOpMatch supported_in_place_binary_op_map m.name <;> simp
        | some p =>
          rw [binary_blocks_inplace m.name p hb]
          simp
      · simp only [if_neg h1]
        cases findOpMatch supported_nary_op_map m.name <;> simp
  · intro hname hlen
    unfold operatorBindings
    rw [hname, hlen]
    have e1 : findOpMatch supported_const_return_binary_op_map "operator+"
        = some ("+", "add") := rfl
    have e2 : findOpMatch supported_in_place_binary_op_map "operator+" = none := rfl
    simp [e1, e2]

/-- Witness for C2: the concrete admitted `operator+` method with one
parameter is bound exactly under the `__add__` key. -/
theorem claim_C2_witness :
    (operatorBindings "pyA" "vpA" wOpPlus).map Prod.fst = [dunder "add"] :=
  (claim_C2_operator_priority "pyA" "vpA" wOpPlus).2 rfl rfl

/-- C10: in every generated class binding set, a retained (public,
non-ignored, supported-type) field is bound under the python name obtained
by stripping every leading `m` and `_` from the native name, with the
emitted accessor text of that field; the accessor selector is read-only
exactly for const-qualified fields and static exactly for static fields;
stripping maps `m_x` to `x` and also truncates `mask` to `ask`. -/
theorem claim_C10_field_bindings :
    (∀ container cls namePython ownerSpecs cfg sob fd md,
        generate_class_with_potiental_specialization container cls namePython ownerSpecs cfg
          = Except.ok sob →
        sob.defs = BindingDefs.classDefs fd md →
        ∀ f ∈ retainedFields cfg cls.fields,
          ((retainedFields cfg cls.fields).map (fun g => fieldNamePython g.name)).Nodup →
          alistLookup fd (fieldNamePython f.name)
            = some (fieldStr ("py" ++ namePython) sob.names.cppName f
                (fieldNamePython f.name)))
    ∧ fieldNamePython "m_x" = "x"
    ∧ fieldNamePython "mask" = "ask"
    ∧ (∀ f : ClassField,
        ((fieldDefKind f = "def_readonly" ∨ fieldDefKind f = "def_readonly_static")
          ↔ f.isConstType = true)
        ∧ ((fieldDefKind f = "def_readonly_static" ∨ fieldDefKind f = "def_readwrite_static")
          ↔ f.static = true)) := by
  refine ⟨?_, by decide, by decide, ?_⟩
  · intro container cls namePython ownerSpecs cfg sob fd md h hdefs f hf hnd
    obtain ⟨nameCpp, d3, gen, d4, _, _, _, _, hsob⟩ :=
      gcws_ok_inv container cls namePython ownerSpecs cfg sob h
    subst hsob
    simp only at hdefs
    have hfd : fd = fieldStage ("py" ++ namePython) nameCpp cfg cls.fields :=
      ((BindingDefs.classDefs.injEq _ _ _ _).mp hdefs.symm).1
    subst hfd
    exact fieldStage_lookup ("py" ++ namePython) nameCpp cfg cls.fields f hf hnd
  · intro f
    cases hc : f.isConstType <;> cases hs : f.static <;>
      simp only [fieldDefKind, hc, hs, Bool.false_eq_true, reduceIte] <;> constructor <;>
      constructor <;> intro h <;> first | rfl | decide | (exact absurd h (by decide)) |
        (rcases h with h | h <;> exact absurd h (by decide)) | exact Or.inl (by decide) |
        exact Or.inr (by decide)

/-- Witness for C10: running the generator on the concrete class with the
public field `m_x` binds it under the stripped name with its accessor text. -/
theorem claim_C10_witness :
    alistLookup (fieldStage "pyA" "vpA" wCfg wFieldCls.fields) (fieldNamePython wField.name)
      = some (fieldStr "pyA" wFieldSob.names.cppName wField (fieldNamePython wField.name)) :=
  claim_C10_field_bindings.1 [] wFieldCls "A" [] wCfg wFieldSob
    (fieldStage "pyA" "vpA" wCfg wFieldCls.fields) [] (by rfl) (by rfl)
    wField (by decide) (by decide)

lemma mem_alistKeys_iff {α : Type} (d : List (String × α)) (k : String) :
    k ∈ alistKeys d ↔ ∃ kv ∈ d, kv.1 = k := by
  simp [alistKeys, List.mem_map]

lemma alistLookup_none_iff {α : Type} (d : List (String × α)) (k : String) :
    alistLookup d k = none ↔ k ∉ alistKeys d := by
  unfold alistLookup
  rw [Option.map_eq_none', List.find?_eq_none, mem_alistKeys_iff]
  constructor
  · rintro h ⟨kv, hkv, rfl⟩
    have := h kv hkv
    simp at this
  · intro h kv hkv hbeq
    exact h ⟨kv, hkv, eq_of_beq hbeq⟩

lemma alistKeys_add (d : MethodsDict) (k : String) (v : MethodBinding) :
    alistKeys (add_to_method_dict d k v)
      = if d.any (fun kv => kv.1 == k) then alistKeys d else alistKeys d ++ [k] := by
  unfold add_to_method_dict
  split
  · simp only [alistKeys, List.map_map]
    apply List.map_congr_left
    intro kv _
    simp only [Function.comp]
    split <;> rfl
  · simp [alistKeys]

lemma mem_keys_add_self (d : MethodsDict) (k : String) (v : MethodBinding) :
    k ∈ alistKeys (add_to_method_dict d k v) := by
  rw [alistKeys_add]
  split
  · next h =>
    rcases List.any_eq_true.mp h with ⟨kv, hkv, hbeq⟩
    exact (mem_alistKeys_iff d k).mpr ⟨kv, hkv, eq_of_beq hbeq⟩
  · simp

lemma mem_keys_add_mono (d : MethodsDict) (k k' : String) (v : MethodBinding)
    (h : k' ∈ alistKeys d) : k' ∈ alistKeys (add_to_method_dict d k v) := by
  rw [alistKeys_add]
  split
  · exact h
  · exact List.mem_append_left _ h

lemma mem_keys_add_inv (d : MethodsDict) (k k' : String) (v : MethodBinding)
    (h : k' ∈ alistKeys (add_to_method_dict d k v)) : k' ∈ alistKeys d ∨ k' = k := by
  rw [alistKeys_add] at h
  split at h
  · exact Or.inl h
  · rcases List.mem_append.mp h with h | h
    · exact Or.inl h
    · exact Or.inr (by simpa using h)

lemma mem_keys_addList_mono :
    ∀ (l : List (String × MethodBinding)) (d : MethodsDict) (k : String),
      k ∈ alistKeys d →
      k ∈ alistKeys (l.foldl (fun d kv => add_to_method_dict d kv.1 kv.2) d) := by
  intro l
  induction l with
  | nil => intro d k h; exact h
  | cons kv rest ih =>
    intro d k h
    exact ih _ k (mem_keys_add_mono d kv.1 k kv.2 h)

lemma mem_keys_addList_self :
    ∀ (l : List (String × MethodBinding)) (d : MethodsDict) (kv : String × MethodBinding),
      kv ∈ l →
      kv.1 ∈ alistKeys (l.foldl (fun d kv => add_to_method_dict d kv.1 kv.2) d) := by
  intro l
  induction l with
  | nil => intro d kv h; exact absurd h (by simp)
  | cons kv0 rest ih =>
    intro d kv h
    rcases List.mem_cons.mp h with he | hmem
    · subst he
      exact mem_keys_addList_mono rest _ kv.1 (mem_keys_add_self d kv.1 kv.2)
    · exact ih _ kv hmem

lemma mem_keys_addList_inv :
    ∀ (l : List (String × MethodBinding)) (d : MethodsDict) (k : String),
      k ∈ alistKeys (l.foldl (fun d kv => add_to_method_dict d kv.1 kv.2) d) →
      k ∈ alistKeys d ∨ ∃ kv ∈ l, kv.1 = k := by
  intro l
  induction l with
  | nil => intro d k h; exact Or.inl h
  | cons kv0 rest ih =>
    intro d k h
    rcases ih _ k h with h | ⟨kv, hkv, rfl⟩
    · rcases mem_keys_add_inv d kv0.1 k kv0.2 h with h | rfl
      · exact Or.inl h
      · exact Or.inr ⟨kv0, List.mem_cons_self _ _, rfl⟩
    · exact Or.inr ⟨kv, List.mem_cons_of_mem _ hkv, rfl⟩

lemma opStage_eq_foldl (pid ncpp : String) (ops : List Method) (d : MethodsDict) :
    opStage pid ncpp ops d
      = ops.foldl
          (fun d m =>
            (operatorBindings pid ncpp m).foldl (fun d kv => add_to_method_dict d kv.1 kv.2) d)
          d := rfl

lemma mem_keys_opStage_mono (pid ncpp : String) :
    ∀ (ops : List Method) (d : MethodsDict) (k : String),
      k ∈ alistKeys d → k ∈ alistKeys (opStage pid ncpp ops d) := by
  intro ops
  induction ops with
  | nil => intro d k h; exact h
  | cons m rest ih =>
    intro d k h
    rw [opStage_eq_foldl, List.foldl_cons, ← opStage_eq_foldl]
    exact ih _ k (mem_keys_addList_mono _ d k h)

lemma mem_keys_opStage_self (pid ncpp : String) :
    ∀ (ops : List Method) (d : MethodsDict) (m : Method)
      (kv : String × MethodBinding),
      m ∈ ops → kv ∈ operatorBindings pid ncpp m →
      kv.1 ∈ alistKeys (opStage pid ncpp ops d) := by
  intro ops
  induction ops with
  | nil => intro d m kv h; exact absurd h (by simp)
  | cons m0 rest ih =>
    intro d m kv h hkv
    rw [opStage_eq_foldl, List.foldl_cons, ← opStage_eq_foldl]
    rcases List.mem_cons.mp h with he | hmem
    · subst he
      exact mem_keys_opStage_mono pid ncpp rest _ kv.1 (mem_keys_addList_self _ d kv hkv)
    · exact ih _ m kv hmem hkv

lemma mem_keys_opStage_inv (pid ncpp : String) :
    ∀ (ops : List Method) (d : MethodsDict) (k : String),
      k ∈ alistKeys (opStage pid ncpp ops d) →
      k ∈ alistKeys d ∨ ∃ m ∈ ops, ∃ kv ∈ operatorBindings pid ncpp m, kv.1 = k := by
  intro ops
  induction ops with
  | nil => intro d k h; exact Or.inl h
  | cons m0 rest ih =>
    intro d k h
    rw [opStage_eq_foldl, List.foldl_cons, ← opStage_eq_foldl] at h
    rcases ih _ k h with h | ⟨m, hm, kv, hkv, rfl⟩
    · rcases mem_keys_addList_inv _ d k h with h | ⟨kv, hkv, rfl⟩
      · exact Or.inl h
      · exact Or.inr ⟨m0, List.mem_cons_self _ _, kv, hkv, rfl⟩
    · exact Or.inr ⟨m, List.mem_cons_of_mem _ hm, kv, hkv, rfl⟩

lemma operatorBindings_mem_inv (pid ncpp : String) (m : Method)
    (kv : String × MethodBinding) (h : kv ∈ operatorBindings pid ncpp m) :
    ∃ p, (p ∈ supported_const_return_unary_op_map ∨
          p ∈ supported_const_return_binary_op_map ∨
          p ∈ supported_in_place_binary_op_map ∨
          p ∈ supported_nary_op_map) ∧ kv.1 = dunder p.2 := by
  unfold operatorBindings at h
  split at h
  · cases hm : findOpMatch supported_const_return_unary_op_map m.name with
    | none => rw [hm] at h; exact absurd h (by simp)
    | some p =>
      rw [hm] at h
      have := List.mem_of_find?_eq_some hm
      refine ⟨p, Or.inl this, ?_⟩
      have : kv = (dunder p.2, opBinding pid "const_return_unary" p.2 ncpp) := by simpa using h
      rw [this]
  · split at h
    · rcases List.mem_append.mp h with h | h
      · cases hm : findOpMatch supported_const_return_binary_op_map m.name with
        | none => rw [hm] at h; exact absurd h (by simp)
        | some p =>
          rw [hm] at h
          have hp := List.mem_of_find?_eq_some hm
          refine ⟨p, Or.inr (Or.inl hp), ?_⟩
          have : kv = (dunder p.2, opBinding pid "const_return_binary" p.2 ncpp) := by simpa using h
          rw [this]
      · cases hm : findOpMatch supported_in_place_binary_op_map m.name with
        | none => rw [hm] at h; exact absurd h (by simp)
        | some p =>
          rw [hm] at h
          have hp := List.mem_of_find?_eq_some hm
          refine ⟨p, Or.inr (Or.inr (Or.inl hp)), ?_⟩
          have : kv = (dunder p.2, opBinding pid "in_place_binary" p.2 ncpp) := by simpa using h
          rw [this]
    · cases hm : findOpMatch supported_nary_op_map m.name with
      | none => rw [hm] at h; exact absurd h (by simp)
      | some p =>
        rw [hm] at h
        have hp := List.mem_of_find?_eq_some hm
        refine ⟨p, Or.inr (Or.inr (Or.inr hp)), ?_⟩
        have : kv = (dunder p.2, opBinding pid "nary" p.2 ncpp) := by simpa using h
        rw [this]

lemma operatorBindings_key_ne_init (pid ncpp : String) (m : Method)
    (kv : String × MethodBinding) (h : kv ∈ operatorBindings pid ncpp m) :
    kv.1 ≠ "__init__" := by
  obtain ⟨p, hp, hkey⟩ := operatorBindings_mem_inv pid ncpp m kv h
  rw [hkey]
  rcases hp with hp | hp | hp | hp <;> fin_cases hp <;> decide

lemma exceptFoldlM_cons {α β : Type} (f : β → α → Except String β) (a : α) (l : List α)
    (b : β) :
    (a :: l).foldlM f b
      = match f b a with
        | Except.error e => Except.error e
        | Except.ok b2 => l.foldlM f b2 := by
  rw [List.foldlM_cons]
  cases f b a <;> rfl

lemma methodSpecFold_keys (pid ncpp : String) (os : List (String × String)) (m : Method)
    (tps : List String) :
    ∀ (l : List (List String)) (acc acc2 : MethodsDict × List MethodData),
      l.foldlM (methodSpecStep pid ncpp os m tps) acc = Except.ok acc2 →
      (∀ k, k ∈ alistKeys acc.1 → k ∈ alistKeys acc2.1) ∧
      (∀ k, k ∈ alistKeys acc2.1 → k ∈ alistKeys acc.1 ∨ k = pyMethodName m) := by
  intro l
  induction l with
  | nil =>
    intro acc acc2 h
    have : acc = acc2 := by simpa [pure, Except.pure] using h
    subst this
    exact ⟨fun k h => h, fun k h => Or.inl h⟩
  | cons msp rest ih =>
    intro acc acc2 h
    rw [exceptFoldlM_cons] at h
    cases hstep : methodSpecStep pid ncpp os m tps acc msp with
    | error e => rw [hstep] at h; exact absurd h (by simp)
    | ok acc1 =>
      rw [hstep] at h
      obtain ⟨ih1, ih2⟩ := ih acc1 acc2 h
      unfold methodSpecStep at hstep
      split at hstep
      · have hacc1 : acc1 = (add_to_method_dict acc.1 (defineMethodData m).pyName
            ⟨pid, defineMethodStr ncpp (tps.zip msp ++ os) m, m.static, false, false, false⟩,
            acc.2 ++ [defineMethodData m]) := by
          injection hstep with hh
          first | exact hh | exact hh.symm
        constructor
        · intro k hk
          exact ih1 k (hacc1 ▸ mem_keys_add_mono _ _ _ _ hk)
        · intro k hk
          rcases ih2 k hk with hk | rfl
          · rw [hacc1] at hk
            rcases mem_keys_add_inv _ _ _ _ hk with hk | rfl
            · exact Or.inl hk
            · exact Or.inr rfl
          · exact Or.inr rfl
      · exact absurd hstep (by simp)

lemma basicMethodStep_keys (pid ncpp : String) (os : List (String × String))
    (acc acc2 : MethodsDict × List MethodData) (m : Method)
    (h : basicMethodStep pid ncpp os acc m = Except.ok acc2) :
    (∀ k, k ∈ alistKeys acc.1 → k ∈ alistKeys acc2.1) ∧
    (∀ k, k ∈ alistKeys acc2.1 → k ∈ alistKeys acc.1 ∨ k = pyMethodName m) ∧
    ((m.tmpl = none ∨ m.methodSpecializations = none) → pyMethodName m ∈ alistKeys acc2.1) := by
  unfold basicMethodStep at h
  split at h
  · next tps specs heq1 heq2 =>
    obtain ⟨h1, h2⟩ := methodSpecFold_keys pid ncpp os m tps (expand_templates specs) acc acc2 h
    refine ⟨h1, h2, ?_⟩
    rintro (hc | hc)
    · rw [hc] at heq1; exact absurd heq1 (by simp)
    · rw [hc] at heq2; exact absurd heq2 (by simp)
  · next hne =>
    have hacc2 : acc2 = (add_to_method_dict acc.1 (defineMethodData m).pyName
        ⟨pid, defineMethodStr ncpp os m, m.static, false, false, false⟩,
        acc.2 ++ [defineMethodData m]) :=
      ((Except.ok.injEq _ _).mp h).symm
    subst hacc2
    refine ⟨fun k hk => mem_keys_add_mono _ _ _ _ hk, ?_, ?_⟩
    · intro k hk
      rcases mem_keys_add_inv _ _ _ _ hk with hk | rfl
      · exact Or.inl hk
      · exact Or.inr rfl
    · intro _
      exact mem_keys_add_self _ _ _

lemma basicStage_keys (pid ncpp : String) (os : List (String × String)) :
    ∀ (basics : List Method) (acc acc2 : MethodsDict × List MethodData),
      basics.foldlM (basicMethodStep pid ncpp os) acc = Except.ok acc2 →
      (∀ k, k ∈ alistKeys acc.1 → k ∈ alistKeys acc2.1) ∧
      (∀ k, k ∈ alistKeys acc2.1 →
        k ∈ alistKeys acc.1 ∨ ∃ m ∈ basics, k = pyMethodName m) ∧
      (∀ m ∈ basics, (m.tmpl = none ∨ m.methodSpecializations = none) →
        pyMethodName m ∈ alistKeys acc2.1) := by
  intro basics
  induction basics with
  | nil =>
    intro acc acc2 h
    have : acc = acc2 := by simpa [pure, Except.pure] using h
    subst this
    exact ⟨fun k h => h, fun k h => Or.inl h, by simp⟩
  | cons m rest ih =>
    intro acc acc2 h
    rw [exceptFoldlM_cons] at h
    cases hstep : basicMethodStep pid ncpp os acc m with
    | error e => rw [hstep] at h; exact absurd h (by simp)
    | ok acc1 =>
      rw [hstep] at h
      obtain ⟨s1, s2, s3⟩ := basicMethodStep_keys pid ncpp os acc acc1 m hstep
      obtain ⟨ih1, ih2, ih3⟩ := ih acc1 acc2 h
      refine ⟨fun k hk => ih1 k (s1 k hk), ?_, ?_⟩
      · intro k hk
        rcases ih2 k hk with hk | ⟨m2, hm2, rfl⟩
        · rcases s2 k hk with hk | rfl
          · exact Or.inl hk
          · exact Or.inr ⟨m, List.mem_cons_self _ _, rfl⟩
        · exact Or.inr ⟨m2, List.mem_cons_of_mem _ hm2, rfl⟩
      · intro m2 hm2 hcond
        rcases List.mem_cons.mp hm2 with he | hmem
        · subst he
          exact ih1 _ (s3 hcond)
        · exact ih3 m2 hmem hcond

lemma shadowForBase_keys (pid : String) (bm : MethodsDict) (d : MethodsDict) :
    alistKeys (shadowForBase pid bm d) = alistKeys d := by
  unfold shadowForBase alistKeys
  rw [List.map_map]
  apply List.map_congr_left
  intro kv _
  simp only [Function.comp]
  split
  · rfl
  · split <;> rfl

lemma shadowFold_keys (pid : String) :
    ∀ (l : List SingleObjectBindings) (d d2 : MethodsDict),
      l.foldlM
        (fun acc sob =>
          match sob.defs with
          | BindingDefs.classDefs _ bm => Except.ok (shadowForBase pid bm acc)
          | BindingDefs.namespaceDefs _ => Except.error "RuntimeError")
        d = Except.ok d2 →
      alistKeys d2 = alistKeys d := by
  intro l
  induction l with
  | nil =>
    intro d d2 h
    have : d = d2 := by simpa [pure, Except.pure] using h
    rw [this]
  | cons sob rest ih =>
    intro d d2 h
    rw [exceptFoldlM_cons] at h
    cases hdefs : sob.defs with
    | classDefs fs bm =>
      rw [hdefs] at h
      have := ih (shadowForBase pid bm d) d2 h
      rw [this, shadowForBase_keys]
    | namespaceDefs fs =>
      rw [hdefs] at h
      exact absurd h (by simp)

lemma shadowPropagate_keys (container : List SingleObjectBindings) (bs : List String)
    (pid : String) (d d2 : MethodsDict)
    (h : shadowPropagate container bs pid d = Except.ok d2) :
    alistKeys d2 = alistKeys d := by
  unfold shadowPropagate at h
  exact shadowFold_keys pid _ d d2 h

lemma reprStage_keys_inv (pid ncpp : String) (cfg : ClsConfig) (cls : ClassScope)
    (d : MethodsDict) (k : String) (h : k ∈ alistKeys (reprStage pid ncpp cfg cls d)) :
    k ∈ alistKeys d ∨ k = "__repr__" := by
  unfold reprStage at h
  split at h
  · exact mem_keys_add_inv _ _ _ _ h
  · exact Or.inl h

lemma reprStage_keys_mono (pid ncpp : String) (cfg : ClsConfig) (cls : ClassScope)
    (d : MethodsDict) (k : String) (h : k ∈ alistKeys d) :
    k ∈ alistKeys (reprStage pid ncpp cfg cls d) := by
  unfold reprStage
  split
  · exact mem_keys_add_mono _ _ _ _ h
  · exact h

lemma additionalStage_keys_inv (pid : String) (cfg : ClsConfig)
    (d : MethodsDict) (k : String) (h : k ∈ alistKeys (additionalStage pid cfg d)) :
    k ∈ alistKeys d ∨ k = "__additional_bindings" := by
  unfold additionalStage at h
  split at h
  · exact mem_keys_add_inv _ _ _ _ h
  · exact Or.inl h

lemma additionalStage_keys_mono (pid : String) (cfg : ClsConfig)
    (d : MethodsDict) (k : String) (h : k ∈ alistKeys d) :
    k ∈ alistKeys (additionalStage pid cfg d) := by
  unfold additionalStage
  split
  · exact mem_keys_add_mono _ _ _ _ h
  · exact h

lemma ctorStage_virtual (pid : String) (os : List (String × String)) (ctors : List Method) :
    ctorStage pid os true ctors = [] := rfl

lemma mem_basicsOf (cls : ClassScope) (m : Method) (h : m ∈ basicsOf cls) :
    m ∈ cls.methods := by
  unfold basicsOf admittedOf at h
  exact List.mem_of_mem_filter (List.mem_of_mem_filter (List.mem_of_mem_filter h))

/-- C5: a class declaring a pure-virtual method, or configured as virtual,
yields a binding set with nothing under the constructor key, while its
plain-method, operator and field bindings are still generated. -/
theorem claim_C5_pure_virtual_no_ctors
    (container : List SingleObjectBindings) (cls : ClassScope) (namePython : String)
    (ownerSpecs : List (String × String)) (cfg : ClsConfig) (sob : SingleObjectBindings)
    (hvirt : containsPureVirtualMethods cls cfg = true)
    (hnames : ∀ m ∈ cls.methods, pyMethodName m ≠ "__init__")
    (h : generate_class_with_potiental_specialization container cls namePython ownerSpecs cfg
        = Except.ok sob) :
    ∃ fd md,
      sob.defs = BindingDefs.classDefs fd md ∧
      alistLookup md "__init__" = none ∧
      fd = fieldStage ("py" ++ namePython) sob.names.cppName cfg cls.fields ∧
      (∀ m ∈ basicsOf cls, (m.tmpl = none ∨ m.methodSpecializations = none) →
        pyMethodName m ∈ alistKeys md) ∧
      (∀ m ∈ opsOf cls, ∀ kv ∈ operatorBindings ("py" ++ namePython) sob.names.cppName m,
        kv.1 ∈ alistKeys md) := by
  obtain ⟨nameCpp, d3, gen, d4, hc, hb, hsh, hconf, hsob⟩ :=
    gcws_ok_inv container cls namePython ownerSpecs cfg sob h
  subst hsob
  rw [hvirt, ctorStage_virtual] at hb
  unfold basicStage at hb
  obtain ⟨s1, s2, s3⟩ := basicStage_keys ("py" ++ namePython) nameCpp ownerSpecs
    (basicsOf cls) (opStage ("py" ++ namePython) nameCpp (opsOf cls) [], []) (d3, gen) hb
  have hkeys4 := shadowPropagate_keys container (publicBaseStrs cls ownerSpecs)
    ("py" ++ namePython) d3 d4 hsh
  refine ⟨_, _, rfl, ?_, rfl, ?_, ?_⟩
  · rw [alistLookup_none_iff]
    intro hmem
    rcases additionalStage_keys_inv _ _ _ _ hmem with hmem | hbad
    swap
    · exact absurd hbad (by decide)
    rcases reprStage_keys_inv _ _ _ _ _ _ hmem with hmem | hbad
    swap
    · exact absurd hbad (by decide)
    rw [hkeys4] at hmem
    rcases s2 _ hmem with hmem | ⟨m, hm, hbad⟩
    swap
    · exact absurd hbad.symm (hnames m (mem_basicsOf cls m hm))
    rcases mem_keys_opStage_inv ("py" ++ namePython) nameCpp (opsOf cls) [] _ hmem with
      hmem | ⟨m, hm, kv, hkv, hbad⟩
    · simp [alistKeys] at hmem
    · exact absurd hbad (operatorBindings_key_ne_init _ _ m kv hkv)
  · intro m hm hcond
    refine additionalStage_keys_mono _ _ _ _ (reprStage_keys_mono _ _ _ _ _ _ ?_)
    rw [hkeys4]
    exact s3 m hm hcond
  · intro m hm kv hkv
    refine additionalStage_keys_mono _ _ _ _ (reprStage_keys_mono _ _ _ _ _ _ ?_)
    rw [hkeys4]
    exact s1 _ (mem_keys_opStage_self ("py" ++ namePython) nameCpp (opsOf cls) [] m kv hm hkv)

/-- Witness for C5: the concrete abstract class (one pure-virtual method, a
constructor, a plain method, an operator and a field) generates with nothing
under the constructor key and with its other bindings present. -/
theorem claim_C5_witness :
    ∃ fd md,
      wVirtualSob.defs = BindingDefs.classDefs fd md ∧
      alistLookup md "__init__" = none ∧
      fd = fieldStage ("py" ++ "V") wVirtualSob.names.cppName wCfg wVirtualCls.fields ∧
      (∀ m ∈ basicsOf wVirtualCls, (m.tmpl = none ∨ m.methodSpecializations = none) →
        pyMethodName m ∈ alistKeys md) ∧
      (∀ m ∈ opsOf wVirtualCls,
        ∀ kv ∈ operatorBindings ("py" ++ "V") wVirtualSob.names.cppName m,
        kv.1 ∈ alistKeys md) :=
  claim_C5_pure_virtual_no_ctors [] wVirtualCls "V" [] wCfg wVirtualSob
    (by decide) (by decide) (by rfl)

/-- C3: when the plain-method stage yields a binding key claimed by both a
static and an instance method, generation of the whole class raises the
fatal overload error, and no entry for the class can reach the container. -/
theorem claim_C3_static_instance_conflict
    (container : List SingleObjectBindings) (cls : ClassScope) (namePython : String)
    (ownerSpecs : List (String × String)) (cfg : ClsConfig) (nameCpp : String)
    (d3 : MethodsDict) (gen : List MethodData) (d4 : MethodsDict)
    (hname : computeNameCpp (nameCppNoTemplate cls) cls.tmpl ownerSpecs = Except.ok nameCpp)
    (hbasic : basicStage ("py" ++ namePython) nameCpp ownerSpecs (basicsOf cls)
        (opStage ("py" ++ namePython) nameCpp (opsOf cls)
          (ctorStage ("py" ++ namePython) ownerSpecs
            (containsPureVirtualMethods cls cfg) (ctorsOf cls))) = Except.ok (d3, gen))
    (hshadow : shadowPropagate container (publicBaseStrs cls ownerSpecs)
        ("py" ++ namePython) d3 = Except.ok d4)
    (hconf : get_static_and_instance_overloads gen ≠ []) :
    generate_class_with_potiental_specialization container cls namePython ownerSpecs cfg
      = Except.error ("Error generating overloads: "
          ++ ", ".intercalate (get_static_and_instance_overloads gen)) ∧
    (∀ (r : Report) (st2 : GenState),
      generateClassWithSpecState ⟨container, r⟩ cls namePython ownerSpecs cfg
        ≠ Except.ok st2) := by
  have hempty : (get_static_and_instance_overloads gen).isEmpty = false := by
    rcases hl : get_static_and_instance_overloads gen with _ | ⟨a, l⟩
    · exact absurd hl hconf
    · rfl
  have hmain : generate_class_with_potiental_specialization container cls namePython
      ownerSpecs cfg
      = Except.error ("Error generating overloads: "
          ++ ", ".intercalate (get_static_and_instance_overloads gen)) := by
    simp only [generate_class_with_potiental_specialization]
    rw [hname]
    simp only []
    rw [hbasic]
    simp only []
    rw [hshadow]
    simp only [hempty, Bool.false_eq_true, if_false]
  refine ⟨hmain, ?_⟩
  intro r st2
  unfold generateClassWithSpecState
  rw [hmain]
  simp

/-- Witness for C3: the class declaring a static and an instance `foo`
fails fatally with the overload error. -/
theorem claim_C3_witness :
    generate_class_with_potiental_specialization [] wConflictCls "C" [] wCfg
      = Except.error ("Error generating overloads: "
          ++ ", ".intercalate (get_static_and_instance_overloads wConflictBasic.2)) :=
  (claim_C3_static_instance_conflict [] wConflictCls "C" [] wCfg "vpC"
    wConflictBasic.1 wConflictBasic.2 wConflictBasic.1
    (by rfl) (by rfl) (by rfl) (by decide)).1

lemma find?_map_fst_preserving (f : (String × List MethodBinding) → (String × List MethodBinding))
    (hf : ∀ kv, (f kv).1 = kv.1) (k : String) :
    ∀ d : MethodsDict, (d.map f).find? (fun kv => kv.1 == k)
      = (d.find? (fun kv => kv.1 == k)).map f := by
  intro d
  induction d with
  | nil => rfl
  | cons kv rest ih =>
    rw [List.map_cons, List.find?_cons, List.find?_cons, hf kv]
    cases kv.1 == k
    · exact ih
    · rfl

lemma shadowForBase_lookup_defined (pid : String) (bm d : MethodsDict) (k : String)
    (own bl : List MethodBinding)
    (hk : (k == "__init__") = false)
    (hd : alistLookup d k = some own)
    (hb : alistLookup bm k = some bl) :
    alistLookup (shadowForBase pid bm d) k
      = some (own ++ bl.map (fun pb => get_definition_in_child_class pb pid)) := by
  unfold alistLookup at hd hb ⊢
  cases hfd : d.find? (fun kv => kv.1 == k) with
  | none => rw [hfd] at hd; exact absurd hd (by simp)
  | some kv =>
    rw [hfd] at hd
    have hkv2 : kv.2 = own := by simpa using hd
    have hbeq := List.find?_some hfd
    have hkv1 : kv.1 = k := eq_of_beq hbeq
    cases hfb : bm.find? (fun b => b.1 == k) with
    | none => rw [hfb] at hb; exact absurd hb (by simp)
    | some bkv =>
      rw [hfb] at hb
      have hbkv2 : bkv.2 = bl := by simpa using hb
      unfold shadowForBase
      rw [find?_map_fst_preserving _ ?hf k d, hfd]
      case hf =>
        intro kv2
        split
        · rfl
        · split <;> rfl
      simp only [Option.map_some']
      rw [hkv1]
      simp only [hk, Bool.false_eq_true, reduceIte, hfb]
      rw [hkv2, hbkv2]

lemma shadowForBase_lookup_mono (pid : String) (bm d : MethodsDict) (k : String) :
    (alistLookup d k = none → alistLookup (shadowForBase pid bm d) k = none) ∧
    (∀ own, alistLookup d k = some own →
      ∃ rest, alistLookup (shadowForBase pid bm d) k = some (own ++ rest)) := by
  have hf : ∀ kv : String × List MethodBinding,
      ((if kv.1 == "__init__" then kv
        else
          match bm.find? (fun b => b.1 == kv.1) with
          | some bkv =>
              (kv.1, kv.2 ++ bkv.2.map (fun pb => get_definition_in_child_class pb pid))
          | none => kv) : String × List MethodBinding).1 = kv.1 := by
    intro kv
    split
    · rfl
    · split <;> rfl
  constructor
  · intro h
    unfold alistLookup at h ⊢
    unfold shadowForBase
    rw [find?_map_fst_preserving _ hf k d]
    cases hfd : d.find? (fun kv => kv.1 == k) with
    | none => rfl
    | some kv => rw [hfd] at h; exact absurd h (by simp)
  · intro own h
    unfold alistLookup at h ⊢
    unfold shadowForBase
    rw [find?_map_fst_preserving _ hf k d]
    cases hfd : d.find? (fun kv => kv.1 == k) with
    | none => rw [hfd] at h; exact absurd h (by simp)
    | some kv =>
      rw [hfd] at h
      have hkv2 : kv.2 = own := by simpa using h
      simp only [Option.map_some']
      by_cases hinit : (kv.1 == "__init__") = true
      · refine ⟨[], ?_⟩
        simp [hinit, hkv2]
      · rw [Bool.not_eq_true] at hinit
        simp only [hinit, Bool.false_eq_true, reduceIte]
        cases hfb : bm.find? (fun b => b.1 == kv.1) with
        | none => exact ⟨[], by simp [hkv2]⟩
        | some bkv =>
          exact ⟨bkv.2.map (fun pb => get_definition_in_child_class pb pid), by simp [hkv2]⟩

lemma shadowFold_mono (pid : String) :
    ∀ (l : List SingleObjectBindings) (d d2 : MethodsDict),
      l.foldlM
        (fun acc sob =>
          match sob.defs with
          | BindingDefs.classDefs _ bm => Except.ok (shadowForBase pid bm acc)
          | BindingDefs.namespaceDefs _ => Except.error "RuntimeError")
        d = Except.ok d2 →
      (∀ k, alistLookup d k = none → alistLookup d2 k = none) ∧
      (∀ k own, alistLookup d k = some own → ∃ rest, alistLookup d2 k = some (own ++ rest)) := by
  intro l
  induction l with
  | nil =>
    intro d d2 h
    have : d = d2 := by simpa [pure, Except.pure] using h
    subst this
    exact ⟨fun k h => h, fun k own h => ⟨[], by simpa using h⟩⟩
  | cons sob rest ih =>
    intro d d2 h
    rw [exceptFoldlM_cons] at h
    cases hdefs : sob.defs with
    | namespaceDefs fs => rw [hdefs] at h; exact absurd h (by simp)
    | classDefs fs bm =>
      rw [hdefs] at h
      obtain ⟨ih1, ih2⟩ := ih (shadowForBase pid bm d) d2 h
      constructor
      · intro k hk
        exact ih1 k ((shadowForBase_lookup_mono pid bm d k).1 hk)
      · intro k own hk
        obtain ⟨r1, hr1⟩ := (shadowForBase_lookup_mono pid bm d k).2 own hk
        obtain ⟨r2, hr2⟩ := ih2 k (own ++ r1) hr1
        exact ⟨r1 ++ r2, by rw [hr2, List.append_assoc]⟩

lemma shadowPropagate_mono (container : List SingleObjectBindings) (bs : List String)
    (pid : String) (d d2 : MethodsDict)
    (h : shadowPropagate container bs pid d = Except.ok d2) :
    (∀ k, alistLookup d k = none → alistLookup d2 k = none) ∧
    (∀ k own, alistLookup d k = some own → ∃ rest, alistLookup d2 k = some (own ++ rest)) :=
  shadowFold_mono pid _ d d2 h

lemma shadowPropagate_single_base (container : List SingleObjectBindings) (b pid : String)
    (d : MethodsDict) (sob : SingleObjectBindings) (fs : List (String × String))
    (bm : MethodsDict)
    (hfind : find_bindings container b = some sob)
    (hdefs : sob.defs = BindingDefs.classDefs fs bm) :
    shadowPropagate container [b] pid d = Except.ok (shadowForBase pid bm d) := by
  unfold shadowPropagate
  simp only [List.filterMap_cons, List.filterMap_nil, hfind]
  rw [List.foldlM_cons, hdefs]
  rfl

/-- C1 (amended): shadow propagation appends the base class's bindings,
rebound to the derived class's binding target, exactly under the
non-constructor keys that the derived class itself defines and the base also
holds; it never removes a binding the derived class defines, and a key the
derived class does not define stays absent from the derived dictionary. -/
theorem claim_C1_shadow_amended :
    (∀ (container : List SingleObjectBindings) (b pid : String) (d : MethodsDict)
       (sob : SingleObjectBindings) (fs : List (String × String)) (bm : MethodsDict)
       (k : String) (own bl : List MethodBinding),
       find_bindings container b = some sob →
       sob.defs = BindingDefs.classDefs fs bm →
       (k == "__init__") = false →
       alistLookup d k = some own →
       alistLookup bm k = some bl →
       shadowPropagate container [b] pid d = Except.ok (shadowForBase pid bm d) ∧
       alistLookup (shadowForBase pid bm d) k
         = some (own ++ bl.map (fun pb => get_definition_in_child_class pb pid)))
    ∧ (∀ (container : List SingleObjectBindings) (bs : List String) (pid : String)
        (d d2 : MethodsDict),
        shadowPropagate container bs pid d = Except.ok d2 →
        (∀ k own, alistLookup d k = some own →
          ∃ rest, alistLookup d2 k = some (own ++ rest)) ∧
        (∀ k, alistLookup d k = none → alistLookup d2 k = none)) := by
  constructor
  · intro container b pid d sob fs bm k own bl hfind hdefs hk hd hb
    exact ⟨shadowPropagate_single_base container b pid d sob fs bm hfind hdefs,
           shadowForBase_lookup_defined pid bm d k own bl hk hd hb⟩
  · intro container bs pid d d2 h
    obtain ⟨h1, h2⟩ := shadowPropagate_mono container bs pid d d2 h
    exact ⟨h2, h1⟩

/-- Witness for C1 (amended): against a container holding base `vpBase` with
a `foo` binding, a derived dictionary that defines `foo` gets the base's
binding appended after its own, rebound to the derived target. -/
theorem claim_C1_witness :
    shadowPropagate [wBaseSob] ["vpBase"] "pyDerived" [("foo", [wDerivedOwnBinding])]
      = Except.ok (shadowForBase "pyDerived" [("foo", [wBaseFooBinding])]
          [("foo", [wDerivedOwnBinding])]) ∧
    alistLookup (shadowForBase "pyDerived" [("foo", [wBaseFooBinding])]
        [("foo", [wDerivedOwnBinding])]) "foo"
      = some ([wDerivedOwnBinding]
          ++ [wBaseFooBinding].map (fun pb => get_definition_in_child_class pb "pyDerived")) :=
  claim_C1_shadow_amended.1 [wBaseSob] "vpBase" "pyDerived" [("foo", [wDerivedOwnBinding])]
    wBaseSob [] [("foo", [wBaseFooBinding])] "foo" [wDerivedOwnBinding] [wBaseFooBinding]
    rfl rfl (by decide) rfl rfl

/-- Counterexample for C1 as stated: the container holds the base class
`vpBase` whose binding set has a method binding under key `foo`; the derived
class declares no method under `foo`; the generated derived binding set
nevertheless holds nothing under `foo` (the loop at header.py lines 470-475
walks only the keys the derived class itself defines). -/
theorem claim_C1_counterexample :
    find_bindings [wBaseSob] "vpBase" = some wBaseSob ∧
    (∃ fs bm, wBaseSob.defs = BindingDefs.classDefs fs bm ∧
      alistLookup bm "foo" = some [wBaseFooBinding]) ∧
    wDerivedCls.methods = [] ∧
    wDerivedCls.bases = [⟨"vpBase", "public"⟩] ∧
    generate_class_with_potiental_specialization [wBaseSob] wDerivedCls "Derived" [] wCfg
      = Except.ok wDerivedSob ∧
    (∃ fd md, wDerivedSob.defs = BindingDefs.classDefs fd md ∧
      alistLookup md "foo" = none) :=
  ⟨rfl, ⟨[], [("foo", [wBaseFooBinding])], rfl, rfl⟩, rfl, rfl, rfl,
   ⟨[], [], rfl, rfl⟩⟩

lemma find?_append_of_none {α : Type} (p : α → Bool) :
    ∀ (l1 l2 : List α), l1.find? p = none → (l1 ++ l2).find? p = l2.find? p := by
  intro l1
  induction l1 with
  | nil => intro l2 _; rfl
  | cons a rest ih =>
    intro l2 h
    rw [List.find?_cons] at h
    rw [List.cons_append, List.find?_cons]
    cases hp : p a
    · rw [hp] at h
      exact ih l2 h
    · rw [hp] at h
      exact absurd h (by simp)

lemma zip_find_general :
    ∀ (tns args : List String) (pre : List (String × String)),
      tns.Nodup → tns.length = args.length →
      (∀ t ∈ tns, pre.find? (fun kv => kv.1 == t) = none) →
      List.Forall₂
        (fun t a => (pre ++ tns.zip args).find? (fun kv => kv.1 == t) = some (t, a))
        tns args := by
  intro tns
  induction tns with
  | nil =>
    intro args pre _ hlen _
    have : args = [] := by
      cases args
      · rfl
      · exact absurd hlen (by simp)
    subst this
    exact List.Forall₂.nil
  | cons t tl ih =>
    intro args pre hnd hlen hpre
    cases args with
    | nil => exact absurd hlen (by simp)
    | cons a al =>
      have hnd1 : t ∉ tl := (List.nodup_cons.mp hnd).1
      have hnd2 : tl.Nodup := (List.nodup_cons.mp hnd).2
      have hlen2 : tl.length = al.length := by simpa using hlen
      refine List.Forall₂.cons ?_ ?_
      · rw [find?_append_of_none _ pre _ (hpre t (List.mem_cons_self t tl))]
        rw [List.zip_cons_cons, List.find?_cons]
        simp
      · have hpre2 : ∀ t2 ∈ tl, (pre ++ [(t, a)]).find? (fun kv => kv.1 == t2) = none := by
          intro t2 ht2
          have h1 : pre.find? (fun kv => kv.1 == t2) = none :=
            hpre t2 (List.mem_cons_of_mem t ht2)
          rw [find?_append_of_none _ pre _ h1]
          have : t ≠ t2 := fun he => hnd1 (he ▸ ht2)
          simp [List.find?_cons, this]
        have := ih al (pre ++ [(t, a)]) hnd2 hlen2 hpre2
        refine this.imp ?_
        intro t2 a2 h2
        rw [List.append_assoc] at h2
        simpa using h2

lemma zip_find_self (tns args : List String) (hnd : tns.Nodup)
    (hlen : tns.length = args.length) :
    List.Forall₂
      (fun t a => (tns.zip args).find? (fun kv => kv.1 == t) = some (t, a)) tns args := by
  have := zip_find_general tns args [] hnd hlen (by intro t _; rfl)
  simpa using this

lemma mapM_of_forall2 (ctx : List (String × String)) :
    ∀ (tns args : List String),
      List.Forall₂ (fun t a => ctx.find? (fun kv => kv.1 == t) = some (t, a)) tns args →
      tns.mapM (fun t =>
        match ctx.find? (fun kv => kv.1 == t) with
        | some kv => Except.ok kv.2
        | none => Except.error ("KeyError: " ++ t)) = Except.ok args := by
  intro tns
  induction tns with
  | nil =>
    intro args h
    cases h
    rfl
  | cons t tl ih =>
    intro args h
    cases h with
    | cons ha htl =>
      rename_i a al
      rw [List.mapM_cons, ha]
      have := ih al htl
      rw [this]
      rfl

lemma computeNameCpp_zip (baseName : String) (tns args : List String)
    (hnd : tns.Nodup) (hlen : tns.length = args.length) :
    computeNameCpp baseName (some tns) (tns.zip args)
      = Except.ok (baseName ++ "<" ++ ", ".intercalate args ++ ">") := by
  show (match tns.mapM (fun t =>
      match (tns.zip args).find? (fun kv => kv.1 == t) with
      | some kv => Except.ok kv.2
      | none => Except.error ("KeyError: " ++ t)) with
    | Except.error e => Except.error e
    | Except.ok args => Except.ok (baseName ++ "<" ++ ", ".intercalate args ++ ">"))
    = Except.ok (baseName ++ "<" ++ ", ".intercalate args ++ ">")
  rw [mapM_of_forall2 (tns.zip args) tns args (zip_find_self tns args hnd hlen)]

lemma gcwsState_ok_inv (st : GenState) (cls : ClassScope) (namePython : String)
    (ownerSpecs : List (String × String)) (cfg : ClsConfig) (st2 : GenState)
    (h : generateClassWithSpecState st cls namePython ownerSpecs cfg = Except.ok st2) :
    ∃ sob, generate_class_with_potiental_specialization st.container cls namePython
        ownerSpecs cfg = Except.ok sob ∧
      st2 = ⟨st.container ++ [sob], addRejectedMethods st.report cls⟩ := by
  unfold generateClassWithSpecState at h
  split at h
  · exact absurd h (by simp)
  next sob hsob =>
    refine ⟨sob, hsob, ?_⟩
    have := (Except.ok.injEq _ _).mp h
    exact this.symm

lemma ptrRefWarningStage_container (st : GenState) (cls : ClassScope) (cfg : ClsConfig) :
    (ptrRefWarningStage st cls cfg).container = st.container := by
  simp only [ptrRefWarningStage]
  split <;> rfl

lemma specsFold_ok (cls : ClassScope) (cfg : ClsConfig) (tnames : List String)
    (htm : cls.tmpl = some tnames) (hnd : tnames.Nodup) :
    ∀ (specs : List SpecEntry) (st st' : GenState),
      (∀ sp ∈ specs, tnames.length = sp.arguments.length) →
      specs.foldlM
        (fun st sp =>
          if tnames.length == sp.arguments.length then
            generateClassWithSpecState st cls sp.pythonName (tnames.zip sp.arguments) cfg
          else
            Except.error ("AssertionError: Specializing " ++ nameCppNoTemplate cls ++
              ": wrong number of template arguments"))
        st = Except.ok st' →
      ∃ sobs, st'.container = st.container ++ sobs ∧
        List.Forall₂
          (fun (sob : SingleObjectBindings) (sp : SpecEntry) =>
            sob.names.pythonName = sp.pythonName ∧
            sob.names.cppName
              = nameCppNoTemplate cls ++ "<" ++ ", ".intercalate sp.arguments ++ ">" ∧
            sob.decl = some (mkClassDecl ("py" ++ sp.pythonName) sp.pythonName
              (nameCppNoTemplate cls ++ "<" ++ ", ".intercalate sp.arguments ++ ">")
              (publicBaseStrs cls (tnames.zip sp.arguments)) cfg))
          sobs specs := by
  intro specs
  induction specs with
  | nil =>
    intro st st' _ h
    have : st = st' := by simpa [pure, Except.pure] using h
    subst this
    exact ⟨[], by simp, List.Forall₂.nil⟩
  | cons sp rest ih =>
    intro st st' harity h
    rw [exceptFoldlM_cons] at h
    have hlen : tnames.length = sp.arguments.length := harity sp (List.mem_cons_self sp rest)
    have hbeq : (tnames.length == sp.arguments.length) = true := by
      rw [hlen]; exact beq_self_eq_true _
    rw [if_pos hbeq] at h
    cases hstep : generateClassWithSpecState st cls sp.pythonName (tnames.zip sp.arguments) cfg with
    | error e => rw [hstep] at h; exact absurd h (by simp)
    | ok st1 =>
      rw [hstep] at h
      obtain ⟨sob, hsob, hst1⟩ :=
        gcwsState_ok_inv st cls sp.pythonName (tnames.zip sp.arguments) cfg st1 hstep
      obtain ⟨nameCpp, d3, gen, d4, hc, _, _, _, hsobEq⟩ :=
        gcws_ok_inv st.container cls sp.pythonName (tnames.zip sp.arguments) cfg sob hsob
      rw [htm, computeNameCpp_zip (nameCppNoTemplate cls) tnames sp.arguments hnd hlen] at hc
      have hnameCpp : nameCpp
          = nameCppNoTemplate cls ++ "<" ++ ", ".intercalate sp.arguments ++ ">" :=
        ((Except.ok.injEq _ _).mp hc).symm
      obtain ⟨sobs', hcont, hfa⟩ := ih st1 st' (fun sp2 h2 => harity sp2 (List.mem_cons_of_mem sp h2)) h
      refine ⟨sob :: sobs', ?_, ?_⟩
      · rw [hcont, hst1]
        simp
      · refine List.Forall₂.cons ?_ hfa
        subst hsobEq
        subst hnameCpp
        exact ⟨rfl, rfl, rfl⟩

/-- C4: a templated class whose configuration lists the specialization
entries s1..sn (all with matching arity) appends exactly n entries to the
container, the i-th named by si's python name, with the native name and the
declaration fragment carrying si's concrete arguments substituted for the
formal template parameters; a non-template, non-ignored class appends
exactly one entry. -/
theorem claim_C4_specialization_sets :
    (∀ (st st' : GenState) (cls : ClassScope) (cfg : ClsConfig) (tnames : List String)
       (specs : List SpecEntry),
       cls.tmpl = some tnames →
       cfg.specializations = some specs →
       specs ≠ [] →
       tnames.Nodup →
       (∀ sp ∈ specs, tnames.length = sp.arguments.length) →
       generate_class st cls false (some cfg) = Except.ok st' →
       ∃ sobs, st'.container = st.container ++ sobs ∧
         List.Forall₂
           (fun (sob : SingleObjectBindings) (sp : SpecEntry) =>
             sob.names.pythonName = sp.pythonName ∧
             sob.names.cppName
               = nameCppNoTemplate cls ++ "<" ++ ", ".intercalate sp.arguments ++ ">" ∧
             sob.decl = some (mkClassDecl ("py" ++ sp.pythonName) sp.pythonName
               (nameCppNoTemplate cls ++ "<" ++ ", ".intercalate sp.arguments ++ ">")
               (publicBaseStrs cls (tnames.zip sp.arguments)) cfg))
           sobs specs)
    ∧ (∀ (st st' : GenState) (cls : ClassScope) (cfg : ClsConfig),
       cls.tmpl = none →
       generate_class st cls false (some cfg) = Except.ok st' →
       ∃ sob, st'.container = st.container ++ [sob]) := by
  constructor
  · intro st st' cls cfg tnames specs htm hspec hne hnd harity h
    simp only [generate_class, Bool.false_eq_true, reduceIte] at h
    rw [htm] at h
    simp only [] at h
    rw [hspec] at h
    rcases specs with _ | ⟨s0, rest⟩
    · exact absurd rfl hne
    simp only [] at h
    obtain ⟨sobs, hcont, hfa⟩ :=
      specsFold_ok cls cfg tnames htm hnd (s0 :: rest) (ptrRefWarningStage st cls cfg) st'
        harity h
    rw [ptrRefWarningStage_container] at hcont
    exact ⟨sobs, hcont, hfa⟩
  · intro st st' cls cfg htm h
    simp only [generate_class, Bool.false_eq_true, reduceIte] at h
    rw [htm] at h
    simp only [] at h
    obtain ⟨sob, _, hst⟩ :=
      gcwsState_ok_inv (ptrRefWarningStage st cls cfg) cls
        ((nameCppNoTemplate cls).replace "vp" "") [] cfg st' h
    refine ⟨sob, ?_⟩
    rw [hst]
    simp only [ptrRefWarningStage_container]

/-- Witness for C4: the concrete template class with two configured
specializations appends exactly the two correspondingly-named entries. -/
theorem claim_C4_witness :
    ∃ sobs, wTplState.container = emptyGenState.container ++ sobs ∧
      List.Forall₂
        (fun (sob : SingleObjectBindings) (sp : SpecEntry) =>
          sob.names.pythonName = sp.pythonName ∧
          sob.names.cppName
            = nameCppNoTemplate wTplCls ++ "<" ++ ", ".intercalate sp.arguments ++ ">" ∧
          sob.decl = some (mkClassDecl ("py" ++ sp.pythonName) sp.pythonName
            (nameCppNoTemplate wTplCls ++ "<" ++ ", ".intercalate sp.arguments ++ ">")
            (publicBaseStrs wTplCls (["T"].zip sp.arguments)) wTplCfg))
        sobs [⟨"TDouble", ["double"]⟩, ⟨"TInt", ["int"]⟩] :=
  claim_C4_specialization_sets.1 emptyGenState wTplState wTplCls wTplCfg ["T"]
    [⟨"TDouble", ["double"]⟩, ⟨"TInt", ["int"]⟩]
    rfl rfl (by decide) (by decide) (by decide) (by rfl)

lemma ptrRefWarningStage_nonGeneratedClasses (st : GenState) (cls : ClassScope)
    (cfg : ClsConfig) :
    (ptrRefWarningStage st cls cfg).report.nonGeneratedClasses
      = st.report.nonGeneratedClasses := by
  simp only [ptrRefWarningStage]
  split <;> rfl

/-- C6 (amended): a template class whose configuration record is present but
declares no specializations (key missing, or an empty list) produces no
container entry and is recorded in the report as a non-generated class; an
absent configuration record instead raises at the pointer-field
acknowledgement stage (header.py line 538, `cls_config.get` on `None`)
before the specialization check at line 552 can run. -/
theorem claim_C6_no_spec_skip :
    (∀ (st : GenState) (cls : ClassScope) (cfg : ClsConfig) (tnames : List String),
       cls.tmpl = some tnames →
       (cfg.specializations = none ∨ cfg.specializations = some []) →
       ∃ st', generate_class st cls false (some cfg) = Except.ok st' ∧
         st'.container = st.container ∧
         st'.report.nonGeneratedClasses
           = st.report.nonGeneratedClasses ++ [nameCppNoTemplate cls])
    ∧ (∀ (st : GenState) (cls : ClassScope),
        generate_class st cls false none
          = Except.error "AttributeError: NoneType object has no attribute get") := by
  constructor
  · intro st cls cfg tnames htm hs
    refine ⟨⟨(ptrRefWarningStage st cls cfg).container,
      { (ptrRefWarningStage st cls cfg).report with
          nonGeneratedClasses :=
            (ptrRefWarningStage st cls cfg).report.nonGeneratedClasses
              ++ [nameCppNoTemplate cls] }⟩, ?_, ?_, ?_⟩
    · simp only [generate_class, Bool.false_eq_true, reduceIte]
      rw [htm]
      rcases hs with hs | hs <;> rw [hs]
    · exact ptrRefWarningStage_container st cls cfg
    · simp only [ptrRefWarningStage_nonGeneratedClasses]
  · intro st cls
    rfl

/-- Witness for C6 (amended): the concrete template class with an
empty specialization list is skipped and reported. -/
theorem claim_C6_witness :
    ∃ st', generate_class emptyGenState wTplCls false (some wEmptySpecCfg) = Except.ok st' ∧
      st'.container = emptyGenState.container ∧
      st'.report.nonGeneratedClasses
        = emptyGenState.report.nonGeneratedClasses ++ [nameCppNoTemplate wTplCls] :=
  claim_C6_no_spec_skip.1 emptyGenState wTplCls wEmptySpecCfg ["T"] rfl (Or.inr rfl)

/-- Counterexample for C6 as stated: with the configuration record absent,
the run on a template class raises an error instead of recording the class
as skipped in the report. -/
theorem claim_C6_counterexample :
    wTplCls.tmpl = some ["T"] ∧
    generate_class emptyGenState wTplCls false none
      = Except.error "AttributeError: NoneType object has no attribute get" ∧
    (∀ st', generate_class emptyGenState wTplCls false none ≠ Except.ok st') := by
  refine ⟨rfl, rfl, ?_⟩
  intro st' h
  rw [show generate_class emptyGenState wTplCls false none
      = Except.error "AttributeError: NoneType object has no attribute get" from rfl] at h
  exact Except.noConfusion h

lemma methodSpecFold_err (pid ncpp : String) (os : List (String × String)) (m : Method)
    (tps : List String) (msp : List String) (hne : tps.length ≠ msp.length) :
    ∀ (msl : List (List String)) (acc : MethodsDict × List MethodData), msp ∈ msl →
      ∃ e, msl.foldlM (methodSpecStep pid ncpp os m tps) acc = Except.error e := by
  intro msl
  induction msl with
  | nil => intro acc h; exact absurd h (by simp)
  | cons s0 rest ih =>
    intro acc hmem
    rw [exceptFoldlM_cons]
    rcases List.mem_cons.mp hmem with he | hmem2
    · subst he
      have hbeq : (tps.length == msp.length) = false := by simpa using hne
      refine ⟨"AssertionError: specialization arity for method " ++ m.name, ?_⟩
      unfold methodSpecStep
      rw [if_neg (by simp [hbeq])]
    · cases hstep : methodSpecStep pid ncpp os m tps acc s0 with
      | error e => exact ⟨e, rfl⟩
      | ok acc1 => exact ih acc1 hmem2

lemma basicMethodStep_err (pid ncpp : String) (os : List (String × String)) (m : Method)
    (tps : List String) (msl : List (List String)) (msp : List String)
    (htm : m.tmpl = some tps) (hms : m.methodSpecializations = some msl)
    (hmem : msp ∈ msl) (hne : tps.length ≠ msp.length)
    (acc : MethodsDict × List MethodData) :
    ∃ e, basicMethodStep pid ncpp os acc m = Except.error e := by
  unfold basicMethodStep
  rw [htm, hms]
  exact methodSpecFold_err pid ncpp os m tps msp hne msl acc hmem

lemma basicsFold_err (pid ncpp : String) (os : List (String × String)) (m : Method)
    (tps : List String) (msl : List (List String)) (msp : List String)
    (htm : m.tmpl = some tps) (hms : m.methodSpecializations = some msl)
    (hmem : msp ∈ msl) (hne : tps.length ≠ msp.length) :
    ∀ (basics : List Method) (acc : MethodsDict × List MethodData), m ∈ basics →
      ∃ e, basics.foldlM (basicMethodStep pid ncpp os) acc = Except.error e := by
  intro basics
  induction basics with
  | nil => intro acc h; exact absurd h (by simp)
  | cons m0 rest ih =>
    intro acc hmemb
    rw [exceptFoldlM_cons]
    rcases List.mem_cons.mp hmemb with he | hmem2
    · subst he
      obtain ⟨e, he⟩ := basicMethodStep_err pid ncpp os m tps msl msp htm hms hmem hne acc
      rw [he]
      exact ⟨e, rfl⟩
    · cases hstep : basicMethodStep pid ncpp os acc m0 with
      | error e => exact ⟨e, rfl⟩
      | ok acc1 => exact ih acc1 hmem2

lemma specsFold_err (cls : ClassScope) (cfg : ClsConfig) (tnames : List String)
    (sp : SpecEntry) (hne : tnames.length ≠ sp.arguments.length) :
    ∀ (specs : List SpecEntry) (st : GenState), sp ∈ specs →
      ∃ e, specs.foldlM
        (fun st sp =>
          if tnames.length == sp.arguments.length then
            generateClassWithSpecState st cls sp.pythonName (tnames.zip sp.arguments) cfg
          else
            Except.error ("AssertionError: Specializing " ++ nameCppNoTemplate cls ++
              ": wrong number of template arguments"))
        st = Except.error e := by
  intro specs
  induction specs with
  | nil => intro st h; exact absurd h (by simp)
  | cons s0 rest ih =>
    intro st hmem
    rw [exceptFoldlM_cons]
    rcases List.mem_cons.mp hmem with he | hmem2
    · subst he
      have hbeq : (tnames.length == sp.arguments.length) = false := by simpa using hne
      rw [if_neg (by simp [hbeq])]
      exact ⟨_, rfl⟩
    · by_cases harr : (tnames.length == s0.arguments.length) = true
      · rw [if_pos harr]
        cases hstep : generateClassWithSpecState st cls s0.pythonName
            (tnames.zip s0.arguments) cfg with
        | error e => exact ⟨e, rfl⟩
        | ok st1 => exact ih st1 hmem2
      · rw [if_neg harr]
        exact ⟨_, rfl⟩

/-- C7: a specialization tuple whose length disagrees with the number of
formal template parameters makes generation fail with a fatal error — at
the class level the whole `generate_class` run for the unit's class errors,
and at the method level the whole class-specialization generation errors —
rather than recording a per-declaration rejection. -/
theorem claim_C7_arity_mismatch_fatal :
    (∀ (st : GenState) (cls : ClassScope) (cfg : ClsConfig) (tnames : List String)
       (specs : List SpecEntry) (sp : SpecEntry),
       cls.tmpl = some tnames →
       cfg.specializations = some specs →
       sp ∈ specs →
       tnames.length ≠ sp.arguments.length →
       ∃ e, generate_class st cls false (some cfg) = Except.error e)
    ∧ (∀ (container : List SingleObjectBindings) (cls : ClassScope) (namePython : String)
        (ownerSpecs : List (String × String)) (cfg : ClsConfig) (m : Method)
        (tps : List String) (msl : List (List String)) (msp : List String),
        m ∈ basicsOf cls →
        m.tmpl = some tps →
        m.methodSpecializations = some msl →
        msp ∈ msl →
        tps.length ≠ msp.length →
        ∃ e, generate_class_with_potiental_specialization container cls namePython
          ownerSpecs cfg = Except.error e) := by
  constructor
  · intro st cls cfg tnames specs sp htm hspec hmem hne
    simp only [generate_class, Bool.false_eq_true, reduceIte]
    rw [htm]
    simp only []
    rw [hspec]
    rcases specs with _ | ⟨s0, rest⟩
    · exact absurd hmem (by simp)
    simp only []
    exact specsFold_err cls cfg tnames sp hne (s0 :: rest) (ptrRefWarningStage st cls cfg) hmem
  · intro container cls namePython ownerSpecs cfg m tps msl msp hmemb htm hms hmem hne
    simp only [generate_class_with_potiental_specialization]
    cases hc : computeNameCpp (nameCppNoTemplate cls) cls.tmpl ownerSpecs with
    | error e => exact ⟨e, rfl⟩
    | ok nameCpp =>
      simp only []
      obtain ⟨e, he⟩ := basicsFold_err ("py" ++ namePython) nameCpp ownerSpecs m tps msl msp
        htm hms hmem hne (basicsOf cls)
        (opStage ("py" ++ namePython) nameCpp (opsOf cls)
          (ctorStage ("py" ++ namePython) ownerSpecs
            (containsPureVirtualMethods cls cfg) (ctorsOf cls)), []) hmemb
      rw [show basicStage ("py" ++ namePython) nameCpp ownerSpecs (basicsOf cls)
          (opStage ("py" ++ namePython) nameCpp (opsOf cls)
            (ctorStage ("py" ++ namePython) ownerSpecs
              (containsPureVirtualMethods cls cfg) (ctorsOf cls)))
          = Except.error e from he]
      exact ⟨e, rfl⟩

/-- Witness for C7: the one-parameter template class configured with a
two-argument specialization tuple fails fatally, as does the class holding
the ill-specialized template method. -/
theorem claim_C7_witness :
    (∃ e, generate_class emptyGenState wTplCls false (some wBadArityCfg) = Except.error e) ∧
    (∃ e, generate_class_with_potiental_specialization [] wBadMethodCls "M" [] wCfg
      = Except.error e) :=
  ⟨claim_C7_arity_mismatch_fatal.1 emptyGenState wTplCls wBadArityCfg ["T"]
      [⟨"TPair", ["double", "int"]⟩] ⟨"TPair", ["double", "int"]⟩
      rfl rfl (by decide) (by decide),
   claim_C7_arity_mismatch_fatal.2 [] wBadMethodCls "M" [] wCfg wBadMethodTpl
      ["U"] [["float", "double"]] ["float", "double"]
      (by decide) rfl rfl (by decide) (by decide)⟩

mutual
theorem parseNs_container_mono (subName : String) (st : GenState) (ns : NsScope)
    (nsPfx : String) (isRoot : Bool) :
    ∃ rest, (parse_sub_namespace subName st ns nsPfx isRoot).container
      = st.container ++ rest := by
  cases ns with
  | node nm fns children =>
    rw [parse_sub_namespace]
    split
    · exact ⟨[], by simp⟩
    · obtain ⟨rest2, h2⟩ := parseChildren_container_mono subName
        ⟨st.container ++ [nsEntry subName nsPfx (NsScope.node nm fns children)],
         { st.report with nonGeneratedMethods :=
             st.report.nonGeneratedMethods
               ++ (fns.filter (fun f => !(isBindable f))).map (fun f => f.name) }⟩
        children nsPfx
      exact ⟨nsEntry subName nsPfx (NsScope.node nm fns children) :: rest2,
        by rw [h2]; simp⟩
termination_by sizeOf ns

theorem parseChildren_container_mono (subName : String) (st : GenState) (cs : NsChildren)
    (nsPfx : String) :
    ∃ rest, (parseSubNamespaceChildren subName st cs nsPfx).container
      = st.container ++ rest := by
  cases cs with
  | nil =>
    rw [parseSubNamespaceChildren]
    exact ⟨[], by simp⟩
  | cons k c rest0 =>
    rw [parseSubNamespaceChildren]
    obtain ⟨r1, h1⟩ := parseNs_container_mono subName st c (nsPfx ++ k ++ "::") false
    obtain ⟨r2, h2⟩ := parseChildren_container_mono subName
      (parse_sub_namespace subName st c (nsPfx ++ k ++ "::") false) rest0 nsPfx
    exact ⟨r1 ++ r2, by rw [h2, h1]; simp⟩
termination_by sizeOf cs
end

/-- C8: the namespace traversal skips a whole anonymous subtree at any
non-root level; every visited namespace (the root included, though its name
is empty) emits an entry whose binding target carries the accumulated
qualified prefix and whose definitions are its admitted free functions; on
the concrete two-level tree the free function of `outer::inner` is bound
under the full `outer::inner::` prefix while the free function of the
anonymous namespace nested under `outer` is never bound. -/
theorem claim_C8_namespace_traversal :
    (∀ (subName : String) (st : GenState) (ns : NsScope) (nsPfx : String),
       ns.name = "" → parse_sub_namespace subName st ns nsPfx false = st)
    ∧ (∀ (subName : String) (st : GenState) (nm : String) (fns : List Method)
        (children : NsChildren) (nsPfx : String) (isRoot : Bool),
        (isRoot = true ∨ nm ≠ "") →
        ∃ rest,
          (parse_sub_namespace subName st (NsScope.node nm fns children) nsPfx
            isRoot).container
          = st.container
            ++ nsEntry subName nsPfx (NsScope.node nm fns children) :: rest)
    ∧ (parse_sub_namespace "core" emptyGenState wRootNs "" true).container
        = [nsEntry "core" "" wRootNs, nsEntry "core" "outer::" wOuterNs,
           nsEntry "core" "outer::inner::" wInnerNs] := by
  refine ⟨?_, ?_, ?_⟩
  · intro subName st ns nsPfx hname
    cases ns with
    | node nm fns children =>
      have : nm = "" := hname
      subst this
      rw [parse_sub_namespace]
      simp
  · intro subName st nm fns children nsPfx isRoot hcase
    rw [parse_sub_namespace]
    have hcond : ¬(!isRoot && nm == "") = true := by
      rcases hcase with hcase | hcase
      · subst hcase; simp
      · simp [hcase]
    rw [if_neg hcond]
    obtain ⟨rest2, h2⟩ := parseChildren_container_mono subName
      ⟨st.container ++ [nsEntry subName nsPfx (NsScope.node nm fns children)],
       { st.report with nonGeneratedMethods :=
           st.report.nonGeneratedMethods
             ++ (fns.filter (fun f => !(isBindable f))).map (fun f => f.name) }⟩
      children nsPfx
    exact ⟨rest2, by rw [h2]; simp⟩
  · simp [parse_sub_namespace, parseSubNamespaceChildren, wRootNs, wOuterNs, wInnerNs,
      wAnonNs, emptyGenState]

/-- Witness for C8: the anonymous namespace scope nested at a non-root level
is skipped entirely. -/
theorem claim_C8_witness :
    parse_sub_namespace "core" emptyGenState wAnonNs "outer::" false = emptyGenState :=
  claim_C8_namespace_traversal.1 "core" emptyGenState wAnonNs "outer::" rfl

lemma ghd_succ (cfg : DepConfig) (headers : List Header) (n : Nat) (self : Header) :
    get_header_dependencies cfg headers (n + 1) self
      = if self.depends.isEmpty then some []
        else ghdLoop cfg (get_header_dependencies cfg headers n) self headers := rfl

lemma ghd_rank (cfg : DepConfig) (headers : List Header) (rank : Header → Nat)
    (hrank : ∀ a ∈ headers, ∀ h ∈ headers, isHeaderDep cfg a h = true → rank h < rank a) :
    ∀ (fuel : Nat) (self : Header), self ∈ headers → rank self < fuel →
      ∃ deps, get_header_dependencies cfg headers fuel self = some deps ∧
        ∀ x ∈ deps, x ∈ headers ∧ rank x < rank self := by
  intro fuel
  induction fuel with
  | zero => intro self _ hlt; exact absurd hlt (by omega)
  | succ n ih =>
    intro self hself hlt
    rw [ghd_succ]
    by_cases hdep : self.depends.isEmpty = true
    · rw [if_pos hdep]
      exact ⟨[], rfl, by simp⟩
    · rw [if_neg hdep]
      have loop : ∀ l : List Header, (∀ x ∈ l, x ∈ headers) →
          ∃ ds, ghdLoop cfg (get_header_dependencies cfg headers n) self l = some ds ∧
            ∀ x ∈ ds, x ∈ headers ∧ rank x < rank self := by
        intro l
        induction l with
        | nil => exact fun _ => ⟨[], rfl, by simp⟩
        | cons h0 rest ihl =>
          intro hsub
          have hsub2 : ∀ x ∈ rest, x ∈ headers :=
            fun x hx => hsub x (List.mem_cons_of_mem h0 hx)
          obtain ⟨ds, hds, hdsP⟩ := ihl hsub2
          by_cases he : h0 = self
          · rw [ghdLoop, if_pos he]
            exact ⟨ds, hds, hdsP⟩
          · by_cases hd : isHeaderDep cfg self h0 = true
            · have hmem0 : h0 ∈ headers := hsub h0 (List.mem_cons_self h0 rest)
              have hr0 : rank h0 < rank self := hrank self hself h0 hmem0 hd
              have hr0n : rank h0 < n := by omega
              obtain ⟨upper, hup, hupP⟩ := ih h0 hmem0 hr0n
              rw [ghdLoop, if_neg he, if_pos hd, hup, hds]
              refine ⟨h0 :: (upper ++ ds), rfl, ?_⟩
              intro x hx
              rcases List.mem_cons.mp hx with rfl | hx
              · exact ⟨hmem0, hr0⟩
              · rcases List.mem_append.mp hx with hx | hx
                · obtain ⟨hxm, hxr⟩ := hupP x hx
                  exact ⟨hxm, by omega⟩
                · exact hdsP x hx
            · rw [ghdLoop, if_neg he, if_neg hd]
              exact ⟨ds, hds, hdsP⟩
      exact loop headers (fun x hx => hx)

lemma ghdLoop_direct (cfg : DepConfig) (rec : Header → Option (List Header)) (self : Header) :
    ∀ (l : List Header) (ds : List Header), ghdLoop cfg rec self l = some ds →
      ∀ h ∈ l, h ≠ self → isHeaderDep cfg self h = true →
        h ∈ ds ∧ ∃ upper, rec h = some upper ∧ ∀ x ∈ upper, x ∈ ds := by
  intro l
  induction l with
  | nil => intro ds _ h hh; exact absurd hh (by simp)
  | cons h0 rest ih =>
    intro ds hds h hh hne hdep
    by_cases he : h0 = self
    · rw [ghdLoop, if_pos he] at hds
      rcases List.mem_cons.mp hh with rfl | hh2
      · exact absurd he hne
      · exact ih ds hds h hh2 hne hdep
    · by_cases hd0 : isHeaderDep cfg self h0 = true
      · rw [ghdLoop, if_neg he, if_pos hd0] at hds
        cases hrec : rec h0 with
        | none => rw [hrec] at hds; exact absurd hds (by simp)
        | some upper0 =>
          rw [hrec] at hds
          cases hloop : ghdLoop cfg rec self rest with
          | none => rw [hloop] at hds; exact absurd hds (by simp)
          | some ds0 =>
            rw [hloop] at hds
            have hdsEq : ds = h0 :: (upper0 ++ ds0) := ((Option.some.injEq _ _).mp hds).symm
            subst hdsEq
            rcases List.mem_cons.mp hh with rfl | hh2
            · refine ⟨List.mem_cons_self _ _, upper0, hrec, ?_⟩
              intro x hx
              exact List.mem_cons_of_mem _ (List.mem_append_left _ hx)
            · obtain ⟨hmem, upper, hup, hupP⟩ := ih ds0 hloop h hh2 hne hdep
              refine ⟨List.mem_cons_of_mem _ (List.mem_append_right _ hmem), upper, hup, ?_⟩
              intro x hx
              exact List.mem_cons_of_mem _ (List.mem_append_right _ (hupP x hx))
      · rw [ghdLoop, if_neg he, if_neg hd0] at hds
        rcases List.mem_cons.mp hh with rfl | hh2
        · exact absurd hdep hd0
        · exact ih ds hds h hh2 hne hdep

lemma ghd_cycle_none :
    ∀ fuel, get_header_dependencies wDepCfg [cycHeaderA, cycHeaderB] fuel cycHeaderA = none ∧
      get_header_dependencies wDepCfg [cycHeaderA, cycHeaderB] fuel cycHeaderB = none := by
  intro fuel
  induction fuel with
  | zero => exact ⟨rfl, rfl⟩
  | succ n ih =>
    obtain ⟨ihA, ihB⟩ := ih
    constructor
    · rw [ghd_succ]
      rw [if_neg (by decide)]
      rw [ghdLoop, if_pos rfl, ghdLoop,
          if_neg (by decide), if_pos (by decide), ihB]
    · rw [ghd_succ]
      rw [if_neg (by decide)]
      rw [ghdLoop, if_neg (by decide), if_pos (by decide), ihA]

/-- C9: the dependency computation skips the unit itself, includes each
direct dependency together with that dependency's own recursively computed
dependencies, and returns a result whenever a rank function certifies the
dependency relation among the listed units acyclic (fuel exceeding the
unit's rank suffices, so the recursion terminates); on the concrete mutual
two-unit cycle the computation exhausts every fuel bound — the source
recursion, which carries no visited set, never returns there. -/
theorem claim_C9_dependency_closure :
    (∀ (cfg : DepConfig) (headers : List Header) (rank : Header → Nat) (n : Nat)
       (self : Header),
       self ∈ headers →
       (∀ a ∈ headers, ∀ h ∈ headers, isHeaderDep cfg a h = true → rank h < rank a) →
       rank self < n →
       ∃ deps, get_header_dependencies cfg headers n self = some deps ∧
         self ∉ deps ∧
         (self.depends.isEmpty = false →
           ∀ h ∈ headers, h ≠ self → isHeaderDep cfg self h = true →
             h ∈ deps ∧ ∃ upper m, m < n ∧
               get_header_dependencies cfg headers m h = some upper ∧
               ∀ x ∈ upper, x ∈ deps))
    ∧ (∀ fuel,
        get_header_dependencies wDepCfg [cycHeaderA, cycHeaderB] fuel cycHeaderA = none) := by
  constructor
  · intro cfg headers rank n self hself hrank hlt
    obtain ⟨deps, hdeps, hP⟩ := ghd_rank cfg headers rank hrank n self hself hlt
    refine ⟨deps, hdeps, ?_, ?_⟩
    · intro hmem
      exact absurd (hP self hmem).2 (lt_irrefl _)
    · intro hdepNE h hh hne hdep
      cases n with
      | zero => exact absurd hlt (by omega)
      | succ m =>
        rw [ghd_succ, if_neg (by rw [hdepNE]; exact Bool.false_ne_true)] at hdeps
        obtain ⟨hmem, upper, hup, hupP⟩ :=
          ghdLoop_direct cfg (get_header_dependencies cfg headers m) self headers deps
            hdeps h hh hne hdep
        exact ⟨hmem, upper, m, by omega, hup, hupP⟩
  · exact fun fuel => (ghd_cycle_none fuel).1

/-- Witness for C9: on the concrete acyclic two-header example, the run with
enough fuel succeeds, omits the unit itself, and includes the direct
dependency with its (empty) recursive closure. -/
theorem claim_C9_witness :
    ∃ deps,
      get_header_dependencies wDepCfg [acyHeaderD, acyHeaderB] 2 acyHeaderD = some deps ∧
      acyHeaderD ∉ deps ∧
      (acyHeaderD.depends.isEmpty = false →
        ∀ h ∈ [acyHeaderD, acyHeaderB], h ≠ acyHeaderD →
          isHeaderDep wDepCfg acyHeaderD h = true →
          h ∈ deps ∧ ∃ upper m, m < 2 ∧
            get_header_dependencies wDepCfg [acyHeaderD, acyHeaderB] m h = some upper ∧
            ∀ x ∈ upper, x ∈ deps) :=
  claim_C9_dependency_closure.1 wDepCfg [acyHeaderD, acyHeaderB] acyRank 2 acyHeaderD
    (by decide) (by decide) (by decide)
